import Mathlib

/-!
Verification of the proposal-generation agent (TDR → technical proposal pipeline).

This file shallowly embeds the string-processing core of the repository:
the content normalizers (`clean_section_content`, `clean_retrieved_content`),
the structural validator and repairer (`ProposalValidator`), the section
orchestrator step (`generate_sections_node`), the retrieval layer
(`search_similar_content`), the outline repair (`generate_index`), the
document chunker (`_chunk_document`) and the metadata extractors.

Strings are modelled as `List Char` (Python `len`/indexing counts code
points, as `List Char` does).  Each Python `re` operation used by the code
is hand-translated into an executable scanner that follows the
leftmost-match / greedy / non-greedy semantics of the concrete pattern; the
derivation of each scanner from its pattern is documented at the
definition.  All recursion is structural on an explicit fuel argument
(always called with the input length, which every scanner consumes at
least one character per step of), so that every definition evaluates by
kernel reduction.
-/

set_option maxRecDepth 8192

namespace Agentes

/-- Python whitespace (`\s` for `str` patterns and `str.strip()`):
space, `\t\n\v\f\r`, the C1 separators `\x1c`–`\x1f`, NEL, NBSP and the
Unicode space separators. -/
def pySpace (c : Char) : Bool :=
  let n := c.toNat
  n = 0x20 || (0x9 ≤ n && n ≤ 0xd) || (0x1c ≤ n && n ≤ 0x1f) || n = 0x85 ||
    n = 0xa0 || n = 0x1680 || (0x2000 ≤ n && n ≤ 0x200a) || n = 0x2028 ||
    n = 0x2029 || n = 0x202f || n = 0x205f || n = 0x3000

/-- Characters kept by the cleaning regex
`re.sub(r'[^\x00-\x7F\xC0-\xFF€\xA1-\xBF]+', '', …)` used by
`clean_section_content`, `clean_retrieved_content`,
`improve_section_content` and `ProposalValidator.fix_issues`:
ASCII, `À`–`ÿ`, the euro sign, and `¡`–`¿`. -/
def allowedChar (c : Char) : Bool :=
  c.toNat ≤ 0x7F || (0xC0 ≤ c.toNat && c.toNat ≤ 0xFF) ||
    c.toNat = 0x20AC || (0xA1 ≤ c.toNat && c.toNat ≤ 0xBF)

/-- Index of the first occurrence of the pattern `pat` as a contiguous
sublist of `l` (the scan a Python regex or `str.find` performs for a
literal pattern). -/
def findPat (pat : List Char) : List Char → Option Nat
  | [] => if pat.isPrefixOf ([] : List Char) then some 0 else none
  | c :: t => if pat.isPrefixOf (c :: t) then some 0 else (findPat pat t).map (· + 1)

/-- Python `pat in s` (substring containment). -/
def containsSub (l pat : List Char) : Bool :=
  (findPat pat l).isSome

/-- Python ASCII/Latin-1 lowercasing, as `str.lower()` acts on the
characters this pipeline deals with: `A`–`Z` and `À`–`Þ` (except `×`)
are shifted by 32; everything else is fixed.  (Full-Unicode special
cases of `str.lower` do not arise in the repository data.) -/
def pyLowerChar (c : Char) : Char :=
  let n := c.toNat
  if (0x41 ≤ n && n ≤ 0x5a) || (0xc0 ≤ n && n ≤ 0xde && n ≠ 0xd7) then
    Char.ofNat (n + 0x20)
  else c

/-- Python `str.lower()` character-wise (see `pyLowerChar`). -/
def pyLower (l : List Char) : List Char := l.map pyLowerChar

/-- Python ASCII/Latin-1 uppercasing (`str.upper()`), inverse shift of
`pyLowerChar`; `ß`/`ÿ` special cases do not arise in the repository data
and are left fixed. -/
def pyUpperChar (c : Char) : Char :=
  let n := c.toNat
  if (0x61 ≤ n && n ≤ 0x7a) || (0xe0 ≤ n && n ≤ 0xfe && n ≠ 0xf7) then
    Char.ofNat (n - 0x20)
  else c

/-- Python `str.upper()` character-wise. -/
def pyUpper (l : List Char) : List Char := l.map pyUpperChar

/-- Python `str.strip()`: drop leading whitespace. -/
def lstrip (l : List Char) : List Char := l.dropWhile pySpace

/-- Python `str.strip()`: drop trailing whitespace. -/
def rstrip (l : List Char) : List Char := (l.reverse.dropWhile pySpace).reverse

/-- Python `str.strip()` with no argument. -/
def pyStrip (l : List Char) : List Char := rstrip (lstrip l)

/-- Python `str.replace(pat, rep)` for a non-empty literal `pat`:
non-overlapping left-to-right replacement of every occurrence.  Fuel is
the length of the string (each step consumes at least one character). -/
def replaceAllF (pat rep : List Char) : Nat → List Char → List Char
  | 0, l => l
  | _ + 1, [] => []
  | fuel + 1, c :: t =>
    if pat.isPrefixOf (c :: t) && !pat.isEmpty then
      rep ++ replaceAllF pat rep fuel ((c :: t).drop pat.length)
    else
      c :: replaceAllF pat rep fuel t

/-- Python `str.replace(pat, rep)` (see `replaceAllF`). -/
def replaceAll (l pat rep : List Char) : List Char := replaceAllF pat rep l.length l

/-- Python `s.split(sep)` for a non-empty literal separator:
non-overlapping left-to-right scan, pieces between occurrences. -/
def splitOnSeqF (sep : List Char) : Nat → List Char → List (List Char)
  | 0, l => [l]
  | _ + 1, [] => [[]]
  | fuel + 1, c :: t =>
    if sep.isPrefixOf (c :: t) && !sep.isEmpty then
      [] :: splitOnSeqF sep fuel ((c :: t).drop sep.length)
    else
      match splitOnSeqF sep fuel t with
      | [] => [[c]]
      | p :: ps => (c :: p) :: ps

/-- Python `s.split(sep)` (see `splitOnSeqF`). -/
def splitOnSeq (l sep : List Char) : List (List Char) := splitOnSeqF sep l.length l

/-- The opening reasoning tag `<think>`. -/
def thinkOpen : List Char := "<think>".data

/-- The closing reasoning tag `</think>`. -/
def thinkClose : List Char := "</think>".data

/-- Python `re.sub(r'<think>.*?</think>', '', s, flags=re.DOTALL)`.
The leftmost match starts at the first `<think>`; the non-greedy body
ends at the first `</think>` after it; scanning resumes after the match.
If the first `<think>` has no closing tag after it, no later one has
either, so the string is returned unchanged. -/
def removeThinkF : Nat → List Char → List Char
  | 0, l => l
  | fuel + 1, l =>
    match findPat thinkOpen l with
    | none => l
    | some i =>
      let rest := l.drop (i + 7)
      match findPat thinkClose rest with
      | none => l
      | some j => l.take i ++ removeThinkF fuel (rest.drop (j + 8))

/-- Reasoning-tag removal (see `removeThinkF`). -/
def removeThink (l : List Char) : List Char := removeThinkF l.length l

/-- Keep only characters of the allow-listed Latin ranges
(`re.sub(r'[^\x00-\x7F\xC0-\xFF€\xA1-\xBF]+', '', s)`). -/
def filterAllowed (l : List Char) : List Char := l.filter allowedChar

/-- One whitespace run under `re.sub(r'\n\s*\n\s*\n+', '\n\n', s)`:
inside a maximal whitespace run holding at least three newlines the
(unique, greedy) match spans from the run's first to its last newline
and is replaced by exactly two newlines; runs with fewer newlines hold
no match. -/
def processRun (run : List Char) : List Char :=
  if 3 ≤ run.count '\n' then
    run.takeWhile (fun c => c ≠ '\n') ++
      '\n' :: '\n' :: (run.reverse.takeWhile (fun c => c ≠ '\n')).reverse
  else run

/-- Python `re.sub(r'\n\s*\n\s*\n+', '\n\n', s)`.  A match consists of
whitespace only, hence lies inside one maximal whitespace run; the runs
are processed left to right by `processRun`. -/
def collapseBlankF : Nat → List Char → List Char
  | 0, l => l
  | _ + 1, [] => []
  | fuel + 1, c :: t =>
    if pySpace c then
      processRun ((c :: t).takeWhile pySpace) ++
        collapseBlankF fuel ((c :: t).dropWhile pySpace)
    else
      c :: collapseBlankF fuel t

/-- Blank-line collapsing (see `collapseBlankF`). -/
def collapseBlank (l : List Char) : List Char := collapseBlankF l.length l

/-- Position of the last newline in `l`. -/
def lastNewlinePos (l : List Char) : Option Nat :=
  match l.reverse.findIdx? (fun c => c = '\n') with
  | none => none
  | some j => some (l.length - 1 - j)

/-- Python `re.sub(r'^#+\s+.*\n', '', s, flags=re.MULTILINE)`, called at
line-start positions.  At a line start the pattern needs one or more
`#`, then a non-empty whitespace run `\s+` (greedy, it may cross
newlines), then `.*` (greedy, no newlines) and a final literal newline.
With `\s+` maximal the final newline is the first one after the
whitespace run; if none exists the engine backtracks and the match ends
at the last newline inside the whitespace run, provided at least one
whitespace character precedes it.  Otherwise there is no match and the
scan moves to the next line start. -/
def removeHeadingsF : Nat → List Char → List Char
  | 0, l => l
  | _ + 1, [] => []
  | fuel + 1, c0 :: t0 =>
    let l := c0 :: t0
    let hashes := l.takeWhile (fun c => c = '#')
    let afterH := l.dropWhile (fun c => c = '#')
    let ws := afterH.takeWhile pySpace
    let rest2 := afterH.dropWhile pySpace
    if hashes.isEmpty || ws.isEmpty then
      match l.dropWhile (fun c => c ≠ '\n') with
      | [] => l
      | _ :: restAfter =>
        l.takeWhile (fun c => c ≠ '\n') ++ '\n' :: removeHeadingsF fuel restAfter
    else
      match rest2.findIdx? (fun c => c = '\n') with
      | some j => removeHeadingsF fuel (rest2.drop (j + 1))
      | none =>
        match lastNewlinePos ws with
        | some m =>
          if 1 ≤ m then removeHeadingsF fuel (ws.drop (m + 1) ++ rest2)
          else
            match l.dropWhile (fun c => c ≠ '\n') with
            | [] => l
            | _ :: restAfter =>
              l.takeWhile (fun c => c ≠ '\n') ++ '\n' :: removeHeadingsF fuel restAfter
        | none =>
          match l.dropWhile (fun c => c ≠ '\n') with
          | [] => l
          | _ :: restAfter =>
            l.takeWhile (fun c => c ≠ '\n') ++ '\n' :: removeHeadingsF fuel restAfter

/-- Heading-line removal (see `removeHeadingsF`). -/
def removeHeadings (l : List Char) : List Char := removeHeadingsF l.length l

/-- Python `re.sub(r'^#{3,}\s+', '## ', s, flags=re.MULTILINE)`, called
at line-start positions (`clean_retrieved_content`).  Three or more `#`
plus the following (greedy, possibly newline-crossing) whitespace run
are replaced by `## `; scanning resumes after the match. -/
def normHeadingsF : Nat → List Char → List Char
  | 0, l => l
  | _ + 1, [] => []
  | fuel + 1, c0 :: t0 =>
    let l := c0 :: t0
    let hashes := l.takeWhile (fun c => c = '#')
    let afterH := l.dropWhile (fun c => c = '#')
    let ws := afterH.takeWhile pySpace
    let rest2 := afterH.dropWhile pySpace
    if 3 ≤ hashes.length && !ws.isEmpty then
      '#' :: '#' :: ' ' ::
        (match rest2.dropWhile (fun c => c ≠ '\n') with
         | [] => rest2
         | _ :: restAfter =>
           rest2.takeWhile (fun c => c ≠ '\n') ++ '\n' :: normHeadingsF fuel restAfter)
    else
      match l.dropWhile (fun c => c ≠ '\n') with
      | [] => l
      | _ :: restAfter =>
        l.takeWhile (fun c => c ≠ '\n') ++ '\n' :: normHeadingsF fuel restAfter

/-- Heading normalization (see `normHeadingsF`). -/
def normHeadings (l : List Char) : List Char := normHeadingsF l.length l

/-- `tools/generation_tools.py`, `clean_section_content`: remove
reasoning-tag spans, strip non-Latin characters, collapse 3+ blank
lines, delete heading lines, then `str.strip()`. -/
def clean_section_content (s : String) : String :=
  ⟨pyStrip (removeHeadings (collapseBlank (filterAllowed (removeThink s.data))))⟩

/-- `tools/crag_tools.py`, `EnhancedProposalRetrieval.clean_retrieved_content`:
same passes, but the last rewrites `###`+ headings to `##` instead of
deleting heading lines. -/
def clean_retrieved_content (s : String) : String :=
  ⟨pyStrip (normHeadings (collapseBlank (filterAllowed (removeThink s.data))))⟩

/-! ### Section node (`nodes/section_node.py`) -/

/-- Python `re.sub(r'^##\s+.*?\n', '', s, flags=re.MULTILINE)` used by
`improve_section_content`: like `removeHeadingsF` but the heading marker
is the two-character literal `##` (a third `#` makes the following
`\s+` fail, so `###` lines are not touched). -/
def removeH2F : Nat → List Char → List Char
  | 0, l => l
  | _ + 1, [] => []
  | fuel + 1, l =>
    let ws := (l.drop 2).takeWhile pySpace
    let rest2 := (l.drop 2).dropWhile pySpace
    if ['#', '#'].isPrefixOf l && !ws.isEmpty then
      match rest2.findIdx? (fun c => c = '\n') with
      | some j => removeH2F fuel (rest2.drop (j + 1))
      | none =>
        match lastNewlinePos ws with
        | some m =>
          if 1 ≤ m then removeH2F fuel (ws.drop (m + 1) ++ rest2)
          else
            match l.dropWhile (fun c => c ≠ '\n') with
            | [] => l
            | _ :: restAfter =>
              l.takeWhile (fun c => c ≠ '\n') ++ '\n' :: removeH2F fuel restAfter
        | none =>
          match l.dropWhile (fun c => c ≠ '\n') with
          | [] => l
          | _ :: restAfter =>
            l.takeWhile (fun c => c ≠ '\n') ++ '\n' :: removeH2F fuel restAfter
    else
      match l.dropWhile (fun c => c ≠ '\n') with
      | [] => l
      | _ :: restAfter =>
        l.takeWhile (fun c => c ≠ '\n') ++ '\n' :: removeH2F fuel restAfter

/-- Two-hash heading removal (see `removeH2F`). -/
def removeH2 (l : List Char) : List Char := removeH2F l.length l

/-- Python `re.sub(r'^###\s+(.*?)$', '### {n}.\1', s, flags=re.MULTILINE)`
used by `improve_section_content`.  At a line starting with exactly
`###` plus non-empty whitespace (greedy, possibly newline-crossing) the
capture is the remainder of the line the whitespace run ends on, and the
match (which excludes the final newline, `$` being zero-width) is
replaced by `### {n}.` plus the capture. -/
def renumberSubsF (n : Nat) : Nat → List Char → List Char
  | 0, l => l
  | _ + 1, [] => []
  | fuel + 1, l =>
    let ws := (l.drop 3).takeWhile pySpace
    let rest2 := (l.drop 3).dropWhile pySpace
    if ['#', '#', '#'].isPrefixOf l && !ws.isEmpty then
      ("### ".data ++ (toString n).data ++ ".".data) ++
        (match rest2.dropWhile (fun c => c ≠ '\n') with
         | [] => rest2
         | _ :: restAfter =>
           rest2.takeWhile (fun c => c ≠ '\n') ++ '\n' :: renumberSubsF n fuel restAfter)
    else
      match l.dropWhile (fun c => c ≠ '\n') with
      | [] => l
      | _ :: restAfter =>
        l.takeWhile (fun c => c ≠ '\n') ++ '\n' :: renumberSubsF n fuel restAfter

/-- Subsection renumbering (see `renumberSubsF`). -/
def renumberSubs (n : Nat) (l : List Char) : List Char := renumberSubsF n l.length l

/-- `nodes/section_node.py`, `improve_section_content`: strip reasoning
tags and non-Latin characters, delete `##` headings the backend emitted,
prefix subsection headings with the chapter number, collapse blank
lines, and prepend the canonical `## {n}. {NAME}` title. -/
def improve_section_content (content section_name : String) (section_number : Nat) : String :=
  let c1 := filterAllowed (removeThink content.data)
  let c2 := renumberSubs section_number (removeH2 c1)
  let c3 := collapseBlank c2
  ⟨("## ".data ++ (toString section_number).data ++ ". ".data ++ pyUpper section_name.data)
    ++ '\n' :: '\n' :: pyStrip c3⟩

/-- The generation backend (`llm.invoke`): returns the response text or
raises (modelled by `Except`, the error value being `str(e)`). -/
def Backend := String → Except String String

/-- Stand-in for the prompt string `generate_section` assembles (the
exact wording does not matter to any claim: the backend is universally
quantified); it concatenates the same inputs the source embeds. -/
def buildSectionPrompt (section_name description info previous_content : String) : String :=
  section_name ++ "\n" ++ description ++ "\n" ++ info ++ "\n" ++ previous_content

/-- `tools/generation_tools.py`, `generate_section`: on backend success
returns `## {name}\n\n` plus the cleaned response; on an exception `e`
returns `Error en sección {name}: Error al generar sección {name}: {e}`
(note: this failure string does NOT start with `Error:`). -/
def generate_section (llm : Backend) (section_name description info previous_content : String) :
    String :=
  match llm (buildSectionPrompt section_name description info previous_content) with
  | Except.ok response =>
    "## " ++ section_name ++ "\n\n" ++ clean_section_content response
  | Except.error e =>
    "Error en sección " ++ section_name ++ ": " ++
      ("Error al generar sección " ++ section_name ++ ": " ++ e)

/-- The run-scoped orchestrator state (`core.state.TDRAgentState`),
restricted to the fields `generate_sections_node` reads or writes.
`messages` counts the accumulated `AIMessage`s (their text plays no role
in any claim); a missing/`None` `index` or `tdr_info` is modelled by the
empty dictionary / empty string (both falsy in the Python guard). -/
structure AgentState where
  index : List (String × String)
  tdr_info : String
  current_section_index : Nat
  sections : List String
  generated_content : List (String × String)
  messages : Nat
  next_step : String
  deriving DecidableEq, Repr

/-- The context accumulator of `generate_sections_node`: concatenate
`## {k}\n\n{v}\n\n` for the stored sections while the accumulator is
still under 3000 characters (checked before each append). -/
def previousContent (gc : List (String × String)) : String :=
  gc.foldl
    (fun acc kv =>
      if acc.length < 3000 then acc ++ "## " ++ kv.1 ++ "\n\n" ++ kv.2 ++ "\n\n" else acc)
    ""

/-- Python `dict[k] = v`: replace the value of an existing key in place,
otherwise append the pair (insertion order preserved). -/
def dictSet {α : Type} (l : List (String × α)) (k : String) (v : α) : List (String × α) :=
  if l.any (fun kv => kv.1 = k) then
    l.map (fun kv => if kv.1 = k then (k, v) else kv)
  else l ++ [(k, v)]

/-- Case-insensitive prefix test (`re.IGNORECASE` on a literal). -/
def ciPrefix (pat l : List Char) : Bool :=
  (pyLower pat).isPrefixOf (pyLower l)

/-- Python `re.sub(r'^##\s+\d+\.\s+' + re.escape(name.upper()), '', s,
flags=re.IGNORECASE)` followed by `.strip()` (`generate_sections_node`
stores the header-stripped body).  The pattern is anchored at the start
of the string (no `MULTILINE`), so at most the leading header is
removed. -/
def stripStoredHeader (name : String) (l : List Char) : List Char :=
  let afterHH := l.drop 2
  let ws1 := afterHH.takeWhile pySpace
  let afterWs1 := afterHH.dropWhile pySpace
  let digits := afterWs1.takeWhile Char.isDigit
  let afterDig := afterWs1.dropWhile Char.isDigit
  let ws2 := (afterDig.drop 1).takeWhile pySpace
  let afterWs2 := (afterDig.drop 1).dropWhile pySpace
  if ['#', '#'].isPrefixOf l && !ws1.isEmpty && !digits.isEmpty &&
      ['.'].isPrefixOf afterDig && !ws2.isEmpty &&
      ciPrefix (pyUpper name.data) afterWs2 then
    pyStrip (afterWs2.drop (pyUpper name.data).length)
  else
    pyStrip l

/-- The placeholder section the error branch of `generate_sections_node`
builds. -/
def minimalSection (idx : Nat) (name : String) : String :=
  "## " ++ toString (idx + 1) ++ ". " ++ (⟨pyUpper name.data⟩ : String) ++
    "\n\n[Esta sección no pudo generarse correctamente. Por favor, revise los logs para más detalles.]"

/-- `nodes/section_node.py`, `generate_sections_node`: one step of the
`GENERATE_SECTIONS` state.  Guard branches: missing inputs route to
`end`, an exhausted cursor routes to `combine_proposal`.  Otherwise one
section is produced: the failure branch (`section_content` starting with
`Error:`) appends `minimalSection`, the success branch appends the
improved section and records its header-stripped body; both increment
the cursor and stay in `generate_sections`.  (`extract_project_metadata`
is also called, but its result only feeds the prompt.) -/
def generate_sections_node (llm : Backend) (st : AgentState) : AgentState :=
  if st.index.isEmpty || st.tdr_info = "" then
    { st with messages := st.messages + 1, next_step := "end" }
  else if st.index.length ≤ st.current_section_index then
    { st with messages := st.messages + 1, next_step := "combine_proposal" }
  else
    let nd := st.index.getD st.current_section_index ("", "")
    let prev := previousContent st.generated_content
    let content := generate_section llm nd.1 nd.2 st.tdr_info prev
    if "Error:".data.isPrefixOf content.data then
      { st with
        sections := st.sections ++ [minimalSection st.current_section_index nd.1],
        messages := st.messages + 2,
        current_section_index := st.current_section_index + 1,
        next_step := "generate_sections" }
    else
      let improved := improve_section_content content nd.1 (st.current_section_index + 1)
      { st with
        sections := st.sections ++ [improved],
        generated_content := dictSet st.generated_content nd.1 ⟨stripStoredHeader nd.1 improved.data⟩,
        messages := st.messages + 1,
        current_section_index := st.current_section_index + 1,
        next_step := "generate_sections" }

/-! ### Proposal validator (`tools/proposal_validator.py`) -/

/-- Python `int` of a run of ASCII digits. -/
def digitsToNat (ds : List Char) : Nat :=
  ds.foldl (fun a c => 10 * a + (c.toNat - 48)) 0

/-- Python `re.findall(r'##\s+(\d+)\.', text, re.MULTILINE)` followed by
`int` on each capture: a non-overlapping left-to-right scan; at each
offset the literal `##`, a non-empty whitespace run, a non-empty digit
run and a dot must follow (so the scan also fires inside `###`-headed
subsection lines, at offset 1); scanning resumes after the dot.  (`\d`
is modelled as ASCII digits, the only digits the repository's documents
use.) -/
def chapterNumsF : Nat → List Char → List Nat
  | 0, _ => []
  | _ + 1, [] => []
  | fuel + 1, l@(_ :: t) =>
    let afterHH := l.drop 2
    let ws := afterHH.takeWhile pySpace
    let afterWs := afterHH.dropWhile pySpace
    let digits := afterWs.takeWhile Char.isDigit
    let afterDig := afterWs.dropWhile Char.isDigit
    if ['#', '#'].isPrefixOf l && !ws.isEmpty && !digits.isEmpty &&
        ['.'].isPrefixOf afterDig then
      digitsToNat digits :: chapterNumsF fuel (afterDig.drop 1)
    else
      chapterNumsF fuel t

/-- Top-level chapter numbers of a document (see `chapterNumsF`). -/
def chapterNums (l : List Char) : List Nat := chapterNumsF l.length l

/-- Python `re.findall(r'###\s+(\d+\.\d+)', text, re.MULTILINE)` with
each capture split at its dot: literal `###`, non-empty whitespace,
digits, dot, digits; scanning resumes after the second digit run. -/
def subCapturesF : Nat → List Char → List (Nat × Nat)
  | 0, _ => []
  | _ + 1, [] => []
  | fuel + 1, l@(_ :: t) =>
    let afterH := l.drop 3
    let ws := afterH.takeWhile pySpace
    let afterWs := afterH.dropWhile pySpace
    let d1 := afterWs.takeWhile Char.isDigit
    let afterD1 := afterWs.dropWhile Char.isDigit
    let d2 := (afterD1.drop 1).takeWhile Char.isDigit
    let afterD2 := (afterD1.drop 1).dropWhile Char.isDigit
    if ['#', '#', '#'].isPrefixOf l && !ws.isEmpty && !d1.isEmpty &&
        ['.'].isPrefixOf afterD1 && !d2.isEmpty then
      (digitsToNat d1, digitsToNat d2) :: subCapturesF fuel afterD2
    else
      subCapturesF fuel t

/-- Subsection labels `chapter.sub` of a document (see `subCapturesF`). -/
def subCaptures (l : List Char) : List (Nat × Nat) := subCapturesF l.length l

/-- Python `str(list_of_ints)`. -/
def pyListRepr (ns : List Nat) : String :=
  "[" ++ String.intercalate ", " (ns.map toString) ++ "]"

/-- The issue text of the sequential-chapter rule. -/
def chapterIssue (numbers expected : List Nat) : String :=
  "Numeración no secuencial en consistent_chapter_numbering: " ++
    pyListRepr numbers ++ " != " ++ pyListRepr expected

/-- Issue text for a same-chapter subsection that does not increment by
one. -/
def subIssueSeq (pc ps c s : Nat) : String :=
  "Subsección no secuencial: " ++ toString pc ++ "." ++ toString ps ++ " -> " ++
    toString c ++ "." ++ toString s

/-- Issue text for a new chapter whose first subsection is not `.1`
(only the offending label is recorded, not a pair). -/
def subIssueFirst (c s : Nat) : String :=
  "Primera subsección no es 1: " ++ toString c ++ "." ++ toString s

/-- Issue text for a chapter decrease between subsection labels. -/
def subIssueBack (pc ps c s : Nat) : String :=
  "Retroceso en la numeración de secciones: " ++ toString pc ++ "." ++ toString ps ++
    " -> " ++ toString c ++ "." ++ toString s

/-- The stateful subsection pass of `validate_proposal` (lines 122-155):
the first label only seeds the reference; a same-chapter label must
increment the subsection by exactly one (reference subsection updated
either way); a larger chapter must restart at `.1` (reference updated
either way); a smaller chapter records a decrease and leaves the
reference unchanged.  Returns the validity flag and the recorded
issues. -/
def subLoop : Option (Nat × Nat) → List (Nat × Nat) → Bool × List String
  | _, [] => (true, [])
  | none, p :: rest => subLoop (some p) rest
  | some (pc, ps), (c, s) :: rest =>
    if c = pc then
      let r := subLoop (some (pc, s)) rest
      if s ≠ ps + 1 then (false, subIssueSeq pc ps c s :: r.2) else r
    else if pc < c then
      let r := subLoop (some (c, s)) rest
      if s ≠ 1 then (false, subIssueFirst c s :: r.2) else r
    else
      let r := subLoop (some (pc, ps)) rest
      (false, subIssueBack pc ps c s :: r.2)

/-- The numbering component of a `ValidationReport`. -/
structure NumberingResult where
  valid : Bool
  issues : List String
  deriving DecidableEq, Repr

/-- The `numbering` sub-record computed by
`ProposalValidator.validate_proposal` (lines 106-155): the chapter
numbers must equal `1, 2, …, n`, and the subsection labels must pass
`subLoop`; issues of the two rules are accumulated in that order. -/
def validateNumbering (doc : String) : NumberingResult :=
  let nums := chapterNums doc.data
  let expected := List.range' 1 nums.length
  let r1 : Bool × List String :=
    if nums = expected then (true, []) else (false, [chapterIssue nums expected])
  let r2 := subLoop none (subCaptures doc.data)
  { valid := r1.1 && r2.1, issues := r1.2 ++ r2.2 }

/-- Python `re.findall(r'##\s+\d+\.\s+', text)` returning the matched
strings themselves (`ProposalValidator.fix_issues`): literal `##`,
whitespace, digits, dot, whitespace, all runs non-empty and greedy;
scanning resumes after the trailing whitespace run. -/
def findallFixF : Nat → List Char → List (List Char)
  | 0, _ => []
  | _ + 1, [] => []
  | fuel + 1, l@(_ :: t) =>
    let afterHH := l.drop 2
    let ws1 := afterHH.takeWhile pySpace
    let afterWs1 := afterHH.dropWhile pySpace
    let digits := afterWs1.takeWhile Char.isDigit
    let afterDig := afterWs1.dropWhile Char.isDigit
    let ws2 := (afterDig.drop 1).takeWhile pySpace
    let afterWs2 := (afterDig.drop 1).dropWhile pySpace
    if ['#', '#'].isPrefixOf l && !ws1.isEmpty && !digits.isEmpty &&
        ['.'].isPrefixOf afterDig && !ws2.isEmpty then
      ('#' :: '#' :: ws1 ++ digits ++ '.' :: ws2) :: findallFixF fuel afterWs2
    else
      findallFixF fuel t

/-- Heading matches used by the repair loop (see `findallFixF`). -/
def findallFix (l : List Char) : List (List Char) := findallFixF l.length l

/-- `ProposalValidator.fix_issues`: strip non-Latin characters and
reasoning tags; then, if the numbering was invalid, enumerate the
matches of `## n. ` in document order and, for the `i`-th match,
globally replace that matched string by `## {i+1}. ` (Python
`str.replace`, hence every occurrence at once). -/
def fixIssues (doc : String) (numberingValid : Bool) : String :=
  let t2 := removeThink (filterAllowed doc.data)
  if numberingValid then ⟨t2⟩
  else
    let ms := findallFix t2
    ⟨(ms.foldl
        (fun (p : List Char × Nat) m =>
          (replaceAll p.1 m ("## ".data ++ (toString (p.2 + 1)).data ++ ". ".data), p.2 + 1))
        (t2, 0)).1⟩

/-- Declarative reading of the subsection pass used to characterize it:
the first label is accepted unconditionally, a same-chapter successor
must increment by exactly one, a strictly larger chapter must restart at
`.1`, and a chapter decrease is a violation. -/
def hierOk : Option (Nat × Nat) → List (Nat × Nat) → Bool
  | _, [] => true
  | none, p :: rest => hierOk (some p) rest
  | some (pc, ps), (c, s) :: rest =>
    if c = pc then decide (s = ps + 1) && hierOk (some (pc, s)) rest
    else if pc < c then decide (s = 1) && hierOk (some (c, s)) rest
    else false

/-! ### Retrieval (`tools/crag_tools.py`, `ProposalEmbedding`) -/

/-- The static section-name → variants mapping of
`ProposalEmbedding._get_section_variants`. -/
def sectionMappings : List (String × List String) :=
  [("introduccion", ["introducción", "introduccion", "1.", "i.", "1 introducción", "1. introducción"]),
   ("objetivos", ["objetivos", "2.", "ii.", "2 objetivos", "2. objetivos", "objetivo general", "objetivos específicos"]),
   ("alcance", ["alcance", "3.", "iii.", "3 alcance", "3. alcance", "alcance del trabajo", "alcance del proyecto"]),
   ("metodologia", ["metodología", "metodologia", "4.", "iv.", "4 metodología", "enfoque metodológico"]),
   ("plan", ["plan", "cronograma", "5.", "v.", "5 plan", "planificación", "plan de trabajo"]),
   ("entregables", ["entregables", "6.", "vi.", "6 entregables", "productos a entregar", "deliverables"]),
   ("recursos", ["recursos", "7.", "vii.", "7 recursos", "equipo de trabajo", "personal asignado"]),
   ("riesgos", ["riesgos", "8.", "viii.", "8 riesgos", "gestión de riesgos", "análisis de riesgos"]),
   ("calidad", ["calidad", "9.", "ix.", "9 calidad", "control de calidad", "aseguramiento de calidad"]),
   ("normativas", ["normativas", "normas", "10.", "x.", "10 normativas", "estándares", "regulaciones"]),
   ("experiencia", ["experiencia", "11.", "xi.", "11 experiencia", "proyectos similares", "track record"]),
   ("anexos", ["anexos", "12.", "xii.", "12 anexos", "apéndices", "documentación adicional"])]

/-- `ProposalEmbedding._get_section_variants`: lowercase the section
name, start from it, extend with every mapping entry whose key or any of
whose alternatives occurs in the name, add the digit/punctuation-free
cleaned name, and deduplicate.  (The source's final `list(set(…))`
returns the variants in unspecified order; the result is only ever
consumed by an order-insensitive `any`, so `dedup` is an adequate
model.) -/
def getSectionVariants (section_name : String) : List String :=
  let sn := pyLower section_name.data
  let base := [(⟨sn⟩ : String)]
  let extended := sectionMappings.foldl
    (fun acc km =>
      if containsSub sn km.1.data || km.2.any (fun alt => containsSub sn alt.data) then
        acc ++ km.2
      else acc)
    base
  let cleanName := pyStrip (sn.filter (fun c => !c.isDigit && !(c = '.' || c = '-' || c = ':')))
  let withClean :=
    if !cleanName.isEmpty && !extended.any (fun v => v = (⟨cleanName⟩ : String)) then
      extended ++ [(⟨cleanName⟩ : String)]
    else extended
  withClean.dedup

/-- A document returned by the vector store
(`langchain Document`): passage text plus the metadata fields the
retrieval layer reads (`project_name`, `source`), with the `.get`
defaults already applied. -/
structure RDoc where
  page_content : String
  project_name : String
  source : String
  deriving DecidableEq, Repr

/-- Python `pathlib.Path(p).stem`: the final path component without its
last suffix (a dot at the start or end of the component does not start a
suffix). -/
def pathStem (p : String) : String :=
  let comp := (splitOnSeq p.data "/".data).getLastD []
  match comp.reverse.findIdx? (fun c => c = '.') with
  | none => ⟨comp⟩
  | some j =>
    let i := comp.length - 1 - j
    if i = 0 || j = 0 then ⟨comp⟩ else ⟨comp.take i⟩

/-- A formatted retrieval result (`RetrievalResult` of the spec). -/
structure RetrievalResult where
  project_name : String
  project_code : String
  section_content : String
  similarity_score : Int
  source : String
  deriving DecidableEq, Repr

/-- Formatting of one `(doc, score)` pair by
`search_similar_content`. -/
def formatResult (ds : RDoc × Int) : RetrievalResult :=
  { project_name := ds.1.project_name
    project_code := pathStem ds.1.source
    section_content := ds.1.page_content
    similarity_score := ds.2
    source := ds.1.source }

/-- Whether a candidate passage survives the section-identity filter:
some variant of the section name occurs in the lowercased passage
text. -/
def matchesVariant (section_name : String) (d : RDoc) : Bool :=
  (getSectionVariants section_name).any
    (fun v => containsSub (pyLower d.page_content.data) v.data)

/-- `ProposalEmbedding.search_similar_content`: `none` models an
uninitialized vector store (the guard returns `[]`); otherwise the
store is queried for `3k` candidates with the combined query of section
name and request text, candidates are filtered by `matchesVariant`, the
unfiltered candidates are used when the filter removes everything (and
candidates exist), and the result is truncated
to `k` and formatted.  (Similarity scores, floats in the source, are
carried through uninterpreted as integers.) -/
def search_similar_content (db : Option (String → Nat → List (RDoc × Int)))
    (query section_name : String) (k : Nat) : List RetrievalResult :=
  match db with
  | none => []
  | some q =>
    let combined := "Sección: " ++ section_name ++ ". " ++ query
    let results := q combined (k * 3)
    let filtered := results.filter (fun ds => matchesVariant section_name ds.1)
    let chosen := if filtered.isEmpty && !results.isEmpty then results else filtered
    (chosen.take k).map formatResult

/-! ### JSON (model of Python `json.loads` / `json.dumps`)

`generate_index` and the metadata extractors round-trip backend output
through Python's `json` module.  `JValue` models a parsed value; numbers
are carried as their raw source token (no claim computes with them).
The parser follows the strict-mode `json.loads` grammar: the four JSON
whitespace characters, `NaN`/`Infinity`/`-Infinity` accepted, trailing
commas rejected, raw control characters in strings rejected, duplicate
object keys resolved last-wins-in-place.  Lone surrogate escapes, which
Python would accept, have no `Char` counterpart and are modelled as a
parse failure. -/

/-- A parsed JSON value. -/
inductive JValue where
  | null : JValue
  | bool (b : Bool) : JValue
  | num (raw : String) : JValue
  | str (s : String) : JValue
  | arr (xs : List JValue) : JValue
  | obj (kvs : List (String × JValue)) : JValue

/-- JSON whitespace (`json.loads`): space, tab, newline, carriage
return. -/
def jsonWs (c : Char) : Bool :=
  c = ' ' || c = '\t' || c = '\n' || c = '\r'

/-- Skip JSON whitespace. -/
def jskipWs (l : List Char) : List Char := l.dropWhile jsonWs

/-- Hex digit value. -/
def hexVal (c : Char) : Option Nat :=
  if '0' ≤ c && c ≤ '9' then some (c.toNat - 48)
  else if 'a' ≤ c && c ≤ 'f' then some (c.toNat - 87)
  else if 'A' ≤ c && c ≤ 'F' then some (c.toNat - 55)
  else none

/-- Parse the four hex digits of a `\uXXXX` escape. -/
def hex4 : List Char → Option (Nat × List Char)
  | a :: b :: c :: d :: rest =>
    match hexVal a, hexVal b, hexVal c, hexVal d with
    | some x, some y, some z, some w => some (((x * 16 + y) * 16 + z) * 16 + w, rest)
    | _, _, _, _ => none
  | _ => none

/-- Parse a JSON string body (after the opening quote) up to and past
the closing quote. -/
def parseJStrF : Nat → List Char → Option (List Char × List Char)
  | 0, _ => none
  | _ + 1, [] => none
  | fuel + 1, c :: t =>
    if c = '"' then some ([], t)
    else if c = '\\' then
      match t with
      | [] => none
      | e :: t2 =>
        if e = '"' || e = '\\' || e = '/' then
          (parseJStrF fuel t2).map (fun p => (e :: p.1, p.2))
        else if e = 'b' then (parseJStrF fuel t2).map (fun p => ('\x08' :: p.1, p.2))
        else if e = 'f' then (parseJStrF fuel t2).map (fun p => ('\x0c' :: p.1, p.2))
        else if e = 'n' then (parseJStrF fuel t2).map (fun p => ('\n' :: p.1, p.2))
        else if e = 'r' then (parseJStrF fuel t2).map (fun p => ('\r' :: p.1, p.2))
        else if e = 't' then (parseJStrF fuel t2).map (fun p => ('\t' :: p.1, p.2))
        else if e = 'u' then
          match hex4 t2 with
          | none => none
          | some (v, t3) =>
            if 0xd800 ≤ v && v ≤ 0xdbff then
              match t3 with
              | '\\' :: 'u' :: t4 =>
                match hex4 t4 with
                | some (w, t5) =>
                  if 0xdc00 ≤ w && w ≤ 0xdfff then
                    (parseJStrF fuel t5).map (fun p =>
                      (Char.ofNat (0x10000 + (v - 0xd800) * 0x400 + (w - 0xdc00)) :: p.1, p.2))
                  else none
                | none => none
              | _ => none
            else if 0xdc00 ≤ v && v ≤ 0xdfff then none
            else (parseJStrF fuel t3).map (fun p => (Char.ofNat v :: p.1, p.2))
        else none
    else if c.toNat < 0x20 then none
    else (parseJStrF fuel t).map (fun p => (c :: p.1, p.2))

/-- Parse a JSON number token (strict grammar), returning the raw
token. -/
def parseJNum (l : List Char) : Option (List Char × List Char) :=
  let (sign, l1) := if ['-'].isPrefixOf l then (['-'], l.drop 1) else ([], l)
  match l1 with
  | [] => none
  | c :: _ =>
    if !c.isDigit then none
    else if c = '0' && (l1.drop 1).head?.any Char.isDigit then none
    else
      let ints := l1.takeWhile Char.isDigit
      let l2 := l1.dropWhile Char.isDigit
      let (frac, l3) :=
        match l2 with
        | '.' :: r =>
          if r.head?.any Char.isDigit then
            ('.' :: r.takeWhile Char.isDigit, r.dropWhile Char.isDigit)
          else ([], l2)
        | _ => ([], l2)
      let (ex, l4) :=
        match l3 with
        | e :: r =>
          if e = 'e' || e = 'E' then
            let (es, r1) := if r.head?.any (fun c => c = '+' || c = '-') then
              ([r.headD '+'], r.drop 1) else ([], r)
            if r1.head?.any Char.isDigit then
              (e :: es ++ r1.takeWhile Char.isDigit, r1.dropWhile Char.isDigit)
            else ([], l3)
          else ([], l3)
        | [] => ([], l3)
      some (sign ++ ints ++ frac ++ ex, l4)

mutual

/-- Parse one JSON value (leading whitespace skipped). -/
def parseJValF : Nat → List Char → Option (JValue × List Char)
  | 0, _ => none
  | fuel + 1, l =>
    match jskipWs l with
    | [] => none
    | c :: t =>
      if c = '"' then
        (parseJStrF fuel t).map (fun p => (JValue.str ⟨p.1⟩, p.2))
      else if c = '[' then
        match jskipWs t with
        | ']' :: t2 => some (JValue.arr [], t2)
        | _ => (parseJArrF fuel t).map (fun p => (JValue.arr p.1, p.2))
      else if c = '\x7b' then
        match jskipWs t with
        | '\x7d' :: t2 => some (JValue.obj [], t2)
        | _ =>
          (parseJObjF fuel t).map (fun p =>
            (JValue.obj (p.1.foldl (fun d kv => dictSet d kv.1 kv.2) []), p.2))
      else if "null".data.isPrefixOf (c :: t) then some (JValue.null, (c :: t).drop 4)
      else if "true".data.isPrefixOf (c :: t) then some (JValue.bool true, (c :: t).drop 4)
      else if "false".data.isPrefixOf (c :: t) then some (JValue.bool false, (c :: t).drop 5)
      else if "NaN".data.isPrefixOf (c :: t) then some (JValue.num "NaN", (c :: t).drop 3)
      else if "Infinity".data.isPrefixOf (c :: t) then some (JValue.num "Infinity", (c :: t).drop 8)
      else if "-Infinity".data.isPrefixOf (c :: t) then
        some (JValue.num "-Infinity", (c :: t).drop 9)
      else
        (parseJNum (c :: t)).map (fun p => (JValue.num ⟨p.1⟩, p.2))

/-- Parse the comma-separated elements of a non-empty array, through the
closing bracket. -/
def parseJArrF : Nat → List Char → Option (List JValue × List Char)
  | 0, _ => none
  | fuel + 1, l =>
    match parseJValF fuel l with
    | none => none
    | some (v, rest) =>
      match jskipWs rest with
      | ',' :: r2 =>
        (parseJArrF fuel r2).map (fun p => (v :: p.1, p.2))
      | ']' :: r2 => some ([v], r2)
      | _ => none

/-- Parse the comma-separated members of a non-empty object, through the
closing brace (duplicate keys last-wins-in-place like a Python dict). -/
def parseJObjF : Nat → List Char → Option (List (String × JValue) × List Char)
  | 0, _ => none
  | fuel + 1, l =>
    match jskipWs l with
    | '"' :: t =>
      match parseJStrF fuel t with
      | none => none
      | some (key, rest) =>
        match jskipWs rest with
        | ':' :: r2 =>
          match parseJValF fuel r2 with
          | none => none
          | some (v, r3) =>
            match jskipWs r3 with
            | ',' :: r4 =>
              (parseJObjF fuel r4).map (fun p => ((⟨key⟩, v) :: p.1, p.2))
            | '\x7d' :: r4 => some ([(⟨key⟩, v)], r4)
            | _ => none
        | _ => none
    | _ => none

end

/-- Python `json.loads`: parse one value and require only whitespace to
follow. -/
def jsonLoads (s : String) : Option JValue :=
  match parseJValF (4 * s.data.length + 8) s.data with
  | some (v, rest) => if jskipWs rest = [] then some v else none
  | none => none

/-- Escape one character for `json.dumps(…, ensure_ascii=False)`. -/
def jescChar (c : Char) : List Char :=
  if c = '"' then ['\\', '"']
  else if c = '\\' then ['\\', '\\']
  else if c = '\n' then ['\\', 'n']
  else if c = '\r' then ['\\', 'r']
  else if c = '\t' then ['\\', 't']
  else if c = '\x08' then ['\\', 'b']
  else if c = '\x0c' then ['\\', 'f']
  else if c.toNat < 0x20 then
    let d1 := c.toNat / 16
    let d2 := c.toNat % 16
    ['\\', 'u', '0', '0', (if d1 < 10 then Char.ofNat (48 + d1) else Char.ofNat (87 + d1)),
      (if d2 < 10 then Char.ofNat (48 + d2) else Char.ofNat (87 + d2))]
  else [c]

/-- Serialize a string for `json.dumps(…, ensure_ascii=False)`. -/
def jdumpStr (s : String) : String :=
  ⟨'"' :: (s.data.foldr (fun c acc => jescChar c ++ acc) ['"'])⟩

mutual

/-- Python `json.dumps(v, ensure_ascii=False)` with the default
separators `', '` and `': '`; numbers reprint as their raw source
token. -/
def jdump : JValue → String
  | JValue.null => "null"
  | JValue.bool true => "true"
  | JValue.bool false => "false"
  | JValue.num raw => raw
  | JValue.str s => jdumpStr s
  | JValue.arr xs => "[" ++ String.intercalate ", " (jdumpList xs) ++ "]"
  | JValue.obj kvs => "\x7b" ++ String.intercalate ", " (jdumpObj kvs) ++ "\x7d"

/-- Serialized array elements. -/
def jdumpList : List JValue → List String
  | [] => []
  | v :: vs => jdump v :: jdumpList vs

/-- Serialized object members. -/
def jdumpObj : List (String × JValue) → List String
  | [] => []
  | (k, v) :: rest => (jdumpStr k ++ ": " ++ jdump v) :: jdumpObj rest

end

/-! ### Outline generation and repair (`tools/analysis_tools.py`, `generate_index`) -/

/-- The required section identities checked by `generate_index`. -/
def requiredSections : List String :=
  ["INTRODUCCION", "OBJETIVOS", "ALCANCE", "METODOLOGIA",
   "PLAN_DE_TRABAJO", "ENTREGABLES", "RECURSOS",
   "RIESGOS", "CALIDAD", "NORMATIVAS", "EXPERIENCIA", "ANEXOS"]

/-- The static per-identity descriptions used to complete a parsed
outline with missing sections. -/
def defaultDescriptions : List (String × String) :=
  [("INTRODUCCION", "Contexto del proyecto y descripción del problema a resolver"),
   ("OBJETIVOS", "Objetivo general y objetivos específicos del proyecto"),
   ("ALCANCE", "Alcance detallado del trabajo y límites del proyecto"),
   ("METODOLOGIA", "Metodología propuesta para el desarrollo del proyecto"),
   ("PLAN_DE_TRABAJO", "Plan de trabajo y cronograma de actividades"),
   ("ENTREGABLES", "Listado detallado de entregables del proyecto"),
   ("RECURSOS", "Recursos humanos y técnicos asignados al proyecto"),
   ("RIESGOS", "Gestión de riesgos y plan de mitigación"),
   ("CALIDAD", "Plan de aseguramiento de calidad"),
   ("NORMATIVAS", "Normativas y estándares aplicables"),
   ("EXPERIENCIA", "Experiencia relevante en proyectos similares"),
   ("ANEXOS", "Anexos técnicos y documentación complementaria")]

/-- The deterministic default outline returned when parsing fails even
after repair (also the fallback of the outer exception handler). -/
def defaultIndex : List (String × JValue) :=
  [("INTRODUCCION_Y_CONTEXTO", JValue.str "Contexto del proyecto y descripción del problema a resolver"),
   ("OBJETIVOS_GENERALES", JValue.str "Objetivo general del proyecto"),
   ("OBJETIVOS_ESPECIFICOS", JValue.str "Objetivos específicos detallados del proyecto"),
   ("ALCANCE_DEL_TRABAJO", JValue.str "Alcance detallado del trabajo, incluyendo lo que está dentro y fuera del alcance"),
   ("METODOLOGIA_PROPUESTA", JValue.str "Metodología propuesta para el desarrollo del proyecto"),
   ("PLAN_DE_TRABAJO_Y_CRONOGRAMA", JValue.str "Plan detallado con fases, actividades y tiempos"),
   ("ENTREGABLES", JValue.str "Listado y descripción detallada de los entregables del proyecto"),
   ("RECURSOS_HUMANOS_Y_TECNICOS", JValue.str "Equipo de trabajo, roles y recursos técnicos asignados"),
   ("GESTION_DE_RIESGOS", JValue.str "Identificación de riesgos y estrategias de mitigación"),
   ("PLAN_DE_CALIDAD", JValue.str "Mecanismos de aseguramiento de calidad y estándares aplicables"),
   ("NORMATIVAS_Y_ESTANDARES_APLICABLES", JValue.str "Cumplimiento de normativas y estándares relevantes"),
   ("EXPERIENCIA_RELEVANTE", JValue.str "Experiencia en proyectos similares y capacidades demostradas"),
   ("ANEXOS_TECNICOS", JValue.str "Documentación técnica complementaria")]

/-- Python `key.upper().replace(" ", "_")`. -/
def upperReplace (key : String) : List Char :=
  (pyUpper key.data).map (fun c => if c = ' ' then '_' else c)

/-- Whether an outline key covers a required identity
(`required in key.upper().replace(" ", "_")`). -/
def keyCovers (key : String) (req : String) : Bool :=
  containsSub (upperReplace key) req.data

/-- Python `response.split(pat)[1]` when `pat` occurs: the text after
the first occurrence (up to the next, but the subsequent
`.split("```")[0]` re-cuts anyway). -/
def afterFirst (pat l : List Char) : List Char :=
  match findPat pat l with
  | some i => l.drop (i + pat.length)
  | none => l

/-- Python `x.split(pat)[0]`: the text before the first occurrence. -/
def beforeFirst (pat l : List Char) : List Char :=
  match findPat pat l with
  | some i => l.take i
  | none => l

/-- The fenced-code cleanup of `generate_index`: if ```` ```json ````
occurs, keep the stripped text between it and the next ```` ``` ````;
otherwise, if ```` ``` ```` occurs, keep the stripped text between the
first and second occurrence. -/
def fenceClean (l : List Char) : List Char :=
  if containsSub l "```json".data then
    pyStrip (beforeFirst "```".data (afterFirst "```json".data l))
  else if containsSub l "```".data then
    pyStrip (beforeFirst "```".data (afterFirst "```".data l))
  else l

/-- One pass of `re.sub(r',\s*X', 'X', s)` for a closing delimiter `X`
(`}` or `]`): a comma followed by whitespace and the delimiter collapses
to the delimiter; scanning resumes after it. -/
def fixCommaF (close : Char) : Nat → List Char → List Char
  | 0, l => l
  | _ + 1, [] => []
  | fuel + 1, c :: t =>
    if c = ',' then
      match t.dropWhile pySpace with
      | c2 :: r2 =>
        if c2 = close then close :: fixCommaF close fuel r2
        else c :: fixCommaF close fuel t
      | [] => c :: fixCommaF close fuel t
    else c :: fixCommaF close fuel t

/-- The trailing-comma repair of `generate_index`:
`re.sub(r',\s*}', '}', …)` then `re.sub(r',\s*]', ']', …)`. -/
def fixTrailingCommas (l : List Char) : List Char :=
  fixCommaF ']' l.length (fixCommaF '\x7d' l.length l)

/-- The cleaning `generate_index` applies to the raw backend response
before parsing: strip reasoning tags, drop everything before the first
opening brace (everything, if there is none), drop everything after the
last closing brace (everything, if there is none), then the fenced-code
cleanup. -/
def outlineClean (response : String) : List Char :=
  let r1 := removeThink response.data
  let r2 := r1.dropWhile (fun c => c ≠ '\x7b')
  let r3 := (r2.reverse.dropWhile (fun c => c ≠ '\x7d')).reverse
  fenceClean r3

/-- Completion of a parsed outline object: the identities not covered by
any original key are appended as `{IDENTITY}_SECCION` with their static
description (membership is tested against the original keys, as in the
source). -/
def completeOutline (kvs : List (String × JValue)) : List (String × JValue) :=
  let missing := requiredSections.filter (fun req => !(kvs.any (fun kv => keyCovers kv.1 req)))
  missing.foldl
    (fun acc req =>
      dictSet acc (req ++ "_SECCION") (JValue.str ((defaultDescriptions.lookup req).getD "")))
    kvs

/-- `tools/analysis_tools.py`, `generate_index`, as a function of the
backend response (the surrounding prompt construction and `llm.invoke`
are irrelevant to the claims, which quantify over the response): clean
the response, parse it; a parsed object is completed and re-serialized;
a parsed non-object raises `AttributeError` at `.keys()`, caught by the
outer handler which returns the serialized `defaultIndex`; an
unparseable response gets the trailing-comma repair and, if it then
parses, is returned verbatim (note: without the identity completion),
otherwise the serialized `defaultIndex` is returned. -/
def generate_index_from_response (response : String) : String :=
  let cleaned := outlineClean response
  match jsonLoads ⟨cleaned⟩ with
  | some (JValue.obj kvs) => jdump (JValue.obj (completeOutline kvs))
  | some _ => jdump (JValue.obj defaultIndex)
  | none =>
    let repaired := fixTrailingCommas cleaned
    match jsonLoads ⟨repaired⟩ with
    | some _ => ⟨repaired⟩
    | none => jdump (JValue.obj defaultIndex)

/-! ### Project metadata extraction
(`nodes/section_node.py` and `nodes/combine_node.py`) -/

/-- Whether a parsed value is exactly the given string (the shape of the
Python comparisons `tdr_dict[...] == "No especificado"`, which can only
hold for a string value). -/
def isStrVal (v : JValue) (s : String) : Bool :=
  match v with
  | JValue.str t => t = s
  | _ => false

/-- Whether a parsed number token denotes zero (sign ignored, all
mantissa digits `0`, any exponent; `NaN`/`Infinity` are non-zero). -/
def numIsZero (raw : String) : Bool :=
  let body := if ["-"].any (fun p => p.data.isPrefixOf raw.data) then raw.data.drop 1 else raw.data
  match body with
  | [] => false
  | c :: _ =>
    c.isDigit && (body.takeWhile (fun d => d.isDigit || d = '.')).all
      (fun d => !d.isDigit || d = '0')

/-- Python truthiness of a parsed JSON value. -/
def jTruthy (v : JValue) : Bool :=
  match v with
  | JValue.null => false
  | JValue.bool b => b
  | JValue.str s => !s.isEmpty
  | JValue.num raw => !numIsZero raw
  | JValue.arr xs => !xs.isEmpty
  | JValue.obj kvs => !kvs.isEmpty

/-- Generic scanner: leftmost position where `matchAt` succeeds
(`re.search` for the patterns below, whose alternatives are all tried at
each offset by `matchAt`). -/
def scanFor {α : Type} (matchAt : List Char → Option α) : Nat → List Char → Option α
  | 0, _ => none
  | fuel + 1, l =>
    match matchAt l with
    | some r => some r
    | none =>
      match l with
      | [] => none
      | _ :: t => scanFor matchAt fuel t

/-- Shared tail of the metadata patterns: `[:\s]+(.+?)(?=\n|$)` — a
non-empty greedy run of colons/whitespace (which may cross newlines),
then a non-empty capture running to the end of its line.  When the run
reaches the end of the string the regex could still match with the
capture inside the run; that degenerate backtracking case (`…cliente:␣`
at end of input, yielding an all-whitespace capture that strips to the
empty string) is modelled as no match. -/
def colonCapture (l : List Char) : Option (List Char) :=
  let cls := l.takeWhile (fun c => c = ':' || pySpace c)
  let r := l.dropWhile (fun c => c = ':' || pySpace c)
  if cls.isEmpty then none
  else
    match r with
    | [] => none
    | _ => some (r.takeWhile (fun c => c ≠ '\n'))

/-- Match attempt at one offset for
`(?:título|titulo|nombre)\s+del\s+proyecto[:\s]+(.+?)(?=\n|$)`
(`re.IGNORECASE`). -/
def titleCaptureAt (l : List Char) : Option (List Char) :=
  match ["título", "titulo", "nombre"].findSome?
      (fun kw => if ciPrefix kw.data l then some (l.drop kw.data.length) else none) with
  | none => none
  | some r1 =>
    if (r1.takeWhile pySpace).isEmpty then none
    else
      let r2 := r1.dropWhile pySpace
      if !ciPrefix "del".data r2 then none
      else
        let r3 := r2.drop 3
        if (r3.takeWhile pySpace).isEmpty then none
        else
          let r4 := r3.dropWhile pySpace
          if !ciPrefix "proyecto".data r4 then none
          else colonCapture (r4.drop 8)

/-- Match attempt at one offset for
`(?:cliente|empresa)[:\s]+(.+?)(?=\n|$)` (`re.IGNORECASE`). -/
def clientCaptureAt (l : List Char) : Option (List Char) :=
  match ["cliente", "empresa"].findSome?
      (fun kw => if ciPrefix kw.data l then some (l.drop kw.data.length) else none) with
  | none => none
  | some r1 => colonCapture r1

/-- Match attempt at one offset for
`(?:fecha|plazo)[:\s]+(.+?)(?=\n|$)` (`re.IGNORECASE`). -/
def dateCaptureAt (l : List Char) : Option (List Char) :=
  match ["fecha", "plazo"].findSome?
      (fun kw => if ciPrefix kw.data l then some (l.drop kw.data.length) else none) with
  | none => none
  | some r1 => colonCapture r1

/-- The title regex search of the metadata extractors. -/
def titleSearch (l : List Char) : Option (List Char) :=
  scanFor titleCaptureAt (l.length + 1) l

/-- The client regex search of the metadata extractors. -/
def clientSearch (l : List Char) : Option (List Char) :=
  scanFor clientCaptureAt (l.length + 1) l

/-- The date regex search of `section_node.extract_project_metadata`. -/
def dateSearch (l : List Char) : Option (List Char) :=
  scanFor dateCaptureAt (l.length + 1) l

/-- The default metadata of `section_node.extract_project_metadata`. -/
def defaultMetadata : List (String × JValue) :=
  [("titulo_proyecto", JValue.str "Proyecto No Especificado"),
   ("cliente", JValue.str "Cliente No Especificado"),
   ("fecha", JValue.str "No Especificada")]

/-- The date-field fallback list scanned by both extractors. -/
def dateFields : List String := ["fecha", "fecha_inicio", "plazos", "cronograma"]

/-- The first date field present, truthy and not `"No especificado"`. -/
def firstDateField (kvs : List (String × JValue)) : Option JValue :=
  dateFields.findSome? (fun f =>
    match kvs.lookup f with
    | some v => if jTruthy v && !isStrVal v "No especificado" then some v else none
    | none => none)

/-- `nodes/section_node.py`, `extract_project_metadata`: parse the TDR
info as JSON; a parsed object overrides `titulo_proyecto`/`cliente`
whenever the key is present and `fecha` from the first usable date
field; a parsed non-object raises (`in`/indexing on a non-dict) before
any assignment, the handler returning the untouched defaults; free text
falls back to the three regex searches, each stripped capture overriding
its field.  Total on every string input. -/
def extract_project_metadata (tdr_info : String) : List (String × JValue) :=
  match jsonLoads tdr_info with
  | some (JValue.obj kvs) =>
    let m1 := match kvs.lookup "titulo_proyecto" with
      | some v => dictSet defaultMetadata "titulo_proyecto" v
      | none => defaultMetadata
    let m2 := match kvs.lookup "cliente" with
      | some v => dictSet m1 "cliente" v
      | none => m1
    match firstDateField kvs with
    | some v => dictSet m2 "fecha" v
    | none => m2
  | some _ => defaultMetadata
  | none =>
    let m1 := match titleSearch tdr_info.data with
      | some cap => dictSet defaultMetadata "titulo_proyecto" (JValue.str ⟨pyStrip cap⟩)
      | none => defaultMetadata
    let m2 := match clientSearch tdr_info.data with
      | some cap => dictSet m1 "cliente" (JValue.str ⟨pyStrip cap⟩)
      | none => m1
    match dateSearch tdr_info.data with
    | some cap => dictSet m2 "fecha" (JValue.str ⟨pyStrip cap⟩)
    | none => m2

/-- `nodes/combine_node.py`, `extract_project_metadata`: reads the state
instead of a raw string (modelled by its `tdr_info` and `sections`
fields) and defaults `fecha` to the current date (`get_current_date()`,
passed in as `now`).  A parsed object overrides title/client only when
the value is not `"No especificado"`; free text is searched only in the
first generated section and only for title and client. -/
def combine_extract_project_metadata (now : String) (tdr_info : String)
    (sections : List String) : List (String × JValue) :=
  let md0 : List (String × JValue) :=
    [("titulo_proyecto", JValue.str "Proyecto No Especificado"),
     ("cliente", JValue.str "Cliente No Especificado"),
     ("fecha", JValue.str now)]
  match jsonLoads tdr_info with
  | some (JValue.obj kvs) =>
    let m1 := match kvs.lookup "titulo_proyecto" with
      | some v => if !isStrVal v "No especificado" then dictSet md0 "titulo_proyecto" v else md0
      | none => md0
    let m2 := match kvs.lookup "cliente" with
      | some v => if !isStrVal v "No especificado" then dictSet m1 "cliente" v else m1
      | none => m1
    match firstDateField kvs with
    | some v => dictSet m2 "fecha" v
    | none => m2
  | some _ => md0
  | none =>
    match sections with
    | [] => md0
    | intro :: _ =>
      let m1 := match titleSearch intro.data with
        | some cap => dictSet md0 "titulo_proyecto" (JValue.str ⟨pyStrip cap⟩)
        | none => md0
      match clientSearch intro.data with
      | some cap => dictSet m1 "cliente" (JValue.str ⟨pyStrip cap⟩)
      | none => m1

/-! ### Chunker (`tools/crag_tools.py`, `ProposalEmbedding._chunk_document`)

The chunker first tries to split on one of four heading patterns (via
`re.search` and then `re.split`, each pattern carrying one capture
group), coalescing the resulting `(title, content)` units into chunks;
if no pattern matches it coalesces blank-line-separated paragraphs with
an overlap tail; if that also yields nothing it slices by fixed
stride.  Each `matchAtN` below implements one pattern's match attempt at
a given offset (which must carry the leading `\n`); the degenerate
backtracking parses where the terminating newline of patterns 1 and 2
lies inside the `\s+` run (possible only at end of input) are modelled
as no match. -/

/-- ASCII uppercase (the character class `[A-Z]`). -/
def isUpperA (c : Char) : Bool := 'A' ≤ c && c ≤ 'Z'

/-- Match attempt for `\n#+\s+(.+?)\n` (markdown headers): newline,
hashes, whitespace run, then a non-empty capture running to the next
newline after the run.  Returns the capture and the rest after the
match. -/
def matchAt1 (l : List Char) : Option (List Char × List Char) :=
  match l with
  | '\n' :: t =>
    if (t.takeWhile (fun c => c = '#')).isEmpty then none
    else
      let afterH := t.dropWhile (fun c => c = '#')
      if (afterH.takeWhile pySpace).isEmpty then none
      else
        let rest2 := afterH.dropWhile pySpace
        match rest2.findIdx? (fun c => c = '\n') with
        | some j => some (rest2.take j, rest2.drop (j + 1))
        | none => none
  | _ => none

/-- Match attempt for `\n(\d+\.\s+.+?)\n` (numbered section headers):
the capture spans digits, dot, the whitespace run and the text up to the
terminating newline. -/
def matchAt2 (l : List Char) : Option (List Char × List Char) :=
  match l with
  | '\n' :: t =>
    let digits := t.takeWhile Char.isDigit
    let afterD := t.dropWhile Char.isDigit
    if digits.isEmpty || !(['.'].isPrefixOf afterD) then none
    else
      let ws := (afterD.drop 1).takeWhile pySpace
      let rest2 := (afterD.drop 1).dropWhile pySpace
      if ws.isEmpty then none
      else
        match rest2.findIdx? (fun c => c = '\n') with
        | some j => some (digits ++ '.' :: ws ++ rest2.take j, rest2.drop (j + 1))
        | none => none
  | _ => none

/-- Match attempt for `\n([A-Z][A-Z\s]+)\n` (all-caps titles): an ASCII
uppercase letter, then a greedy run of uppercase/whitespace whose last
contained newline terminates the match (the character after the maximal
run cannot be a newline, so the terminator always lies inside the run
and at least one class character must precede it). -/
def matchAt3 (l : List Char) : Option (List Char × List Char) :=
  match l with
  | '\n' :: c0 :: t =>
    if !isUpperA c0 then none
    else
      let r := t.takeWhile (fun c => isUpperA c || pySpace c)
      match lastNewlinePos r with
      | some m =>
        if 1 ≤ m then some (c0 :: r.take m, r.drop (m + 1) ++ t.drop r.length)
        else none
      | none => none
  | _ => none

/-- Match attempt for `\n(.*?:)\n` (label lines): the capture is a full
line ending in a colon, the colon being immediately followed by the
terminating newline. -/
def matchAt4 (l : List Char) : Option (List Char × List Char) :=
  match l with
  | '\n' :: t =>
    let line := t.takeWhile (fun c => c ≠ '\n')
    if line.getLast? = some ':' && line.length < t.length then
      some (line, t.drop (line.length + 1))
    else none
  | _ => none

/-- `re.split` with one capture group: the interleaved list
`[pre₀, cap₁, pre₁, …, preₙ]` (always of odd length). -/
def resplitF (matchAt : List Char → Option (List Char × List Char)) :
    Nat → List Char → List (List Char)
  | 0, l => [l]
  | _ + 1, [] => [[]]
  | fuel + 1, l@(c :: t) =>
    match matchAt l with
    | some (cap, rest) => [] :: cap :: resplitF matchAt fuel rest
    | none =>
      match resplitF matchAt fuel t with
      | [] => [[c]]
      | p :: ps => (c :: p) :: ps

/-- `re.search` success for a pattern given by its match attempt. -/
def hasMatch (matchAt : List Char → Option (List Char × List Char)) (l : List Char) : Bool :=
  (scanFor matchAt (l.length + 1) l).isSome

/-- Pair the split list into `(title, content)` units, as the source's
`for i in range(1, len(sections), 2)` loop does (the trailing segment
always exists, the split list having odd length). -/
def pairUnits : List (List Char) → List (List Char × List Char)
  | cap :: seg :: r => (cap, seg) :: pairUnits r
  | _ => []

/-- Units of a split list (drop the leading pre-segment, then pair). -/
def toUnits : List (List Char) → List (List Char × List Char)
  | [] => []
  | _pre :: rest => pairUnits rest

/-- The heading-unit coalescing loop: if the current chunk is non-empty
and would overflow `size` with the next unit's stripped title and
content appended, it is flushed (stripped) first; the unit is then
appended as `\n{title}\n{content}`; a final non-empty chunk is
flushed. -/
def coalesceHeadingGo (size : Nat) :
    List (List Char × List Char) → List Char → List (List Char)
  | [], cur => if cur.isEmpty then [] else [pyStrip cur]
  | u :: us, cur =>
    let title := pyStrip u.1
    let content := u.2
    if size < cur.length + title.length + content.length ∧ cur ≠ [] then
      pyStrip cur :: coalesceHeadingGo size us ('\n' :: (title ++ '\n' :: content))
    else
      coalesceHeadingGo size us (cur ++ '\n' :: (title ++ '\n' :: content))

/-- Python `s[-overlap:] if overlap > 0 else ""`. -/
def pyTail (overlap : Nat) (l : List Char) : List Char :=
  if overlap = 0 then [] else l.drop (l.length - overlap)

/-- The paragraph coalescing loop: a non-empty current chunk that would
overflow `size` with the next paragraph is flushed, its `overlap`-char
tail seeding the next chunk; the paragraph is then appended after a
newline; a final non-empty chunk is flushed. -/
def coalesceParaGo (size overlap : Nat) : List (List Char) → List Char → List (List Char)
  | [], cur => if cur.isEmpty then [] else [pyStrip cur]
  | p :: ps, cur =>
    if size < cur.length + p.length ∧ cur ≠ [] then
      pyStrip cur :: coalesceParaGo size overlap ps (pyTail overlap cur ++ '\n' :: p)
    else
      coalesceParaGo size overlap ps (cur ++ '\n' :: p)

/-- Fixed-stride slicing (`for i in range(0, len(text), stride)` with
stripped `text[i:i+size]` slices); caller guarantees `stride ≥ 1`. -/
def sliceChunksF (size stride : Nat) : Nat → List Char → List (List Char)
  | 0, _ => []
  | fuel + 1, l =>
    match l with
    | [] => []
    | _ :: _ => pyStrip (l.take size) :: sliceChunksF size stride fuel (l.drop stride)

/-- One heading-pattern attempt of `_chunk_document`: if the pattern
matches somewhere in `\n` + text, split and coalesce; otherwise
nothing. -/
def tryHeadingPat (matchAt : List Char → Option (List Char × List Char))
    (text : List Char) (size : Nat) : List (List Char) :=
  let full := '\n' :: text
  if hasMatch matchAt full then
    coalesceHeadingGo size (toUnits (resplitF matchAt (full.length + 1) full)) []
  else []

/-- `ProposalEmbedding._chunk_document`: heading-delimited coalescing
(four patterns tried in order, the first that yields chunks winning),
else paragraph-delimited coalescing with overlap, else fixed-stride
slicing, and a final filter dropping whitespace-only chunks.  (For
`chunk_overlap ≥ chunk_size` Python's `range` would raise or produce no
slices; the model returns no slices — every claim constrains
`0 < overlap < size`.) -/
def chunk_document (text : String) (chunk_size chunk_overlap : Nat) : List String :=
  let hchunks := [matchAt1, matchAt2, matchAt3, matchAt4].foldl
    (fun acc m => if acc.isEmpty then tryHeadingPat m text.data chunk_size else acc) []
  let pchunks :=
    if hchunks.isEmpty then
      let paras := ((splitOnSeq text.data "\n\n".data).map pyStrip).filter
        (fun p => !p.isEmpty)
      coalesceParaGo chunk_size chunk_overlap paras []
    else hchunks
  let schunks :=
    if pchunks.isEmpty then
      if chunk_overlap < chunk_size then
        sliceChunksF chunk_size (chunk_size - chunk_overlap) text.data.length text.data
      else []
    else pchunks
  (schunks.filter (fun c => !(pyStrip c).isEmpty)).map (fun l => (⟨l⟩ : String))

/-! ### Auxiliary definitions for the verification layer -/

/-- A string all of whose whitespace factors hold at most two newlines:
the normal form the blank-line collapsing pass establishes. -/
def GoodWs (l : List Char) : Prop :=
  ∀ m : List Char, m <:+: l → (∀ c ∈ m, pySpace c = true) → m.count '\n' ≤ 2

/-- An upper bound on the length of a single coalescing unit of
`_chunk_document`: the largest stripped-title-plus-content length over
every heading pattern's units together with the largest stripped
paragraph length.  Whichever branch the chunker takes, each unit it
coalesces is bounded by this quantity. -/
def chunkUnitBound (text : String) : Nat :=
  let full := '\n' :: text.data
  let unitMax := fun (m : List Char → Option (List Char × List Char)) =>
    ((toUnits (resplitF m (full.length + 1) full)).map
      (fun u => (pyStrip u.1).length + u.2.length)).foldr max 0
  let paraMax := (((((splitOnSeq text.data "\n\n".data).map pyStrip).filter
    (fun p => !p.isEmpty)).map List.length).foldr max 0)
  max (max (max (unitMax matchAt1) (unitMax matchAt2))
        (max (unitMax matchAt3) (unitMax matchAt4))) paraMax

/-! ## Lemmas -/

theorem dictSet_keys_of_any {α : Type} {l : List (String × α)} {k : String} (v : α)
    (h : l.any (fun kv => kv.1 = k) = true) :
    (dictSet l k v).map Prod.fst = l.map Prod.fst := by
  unfold dictSet
  rw [if_pos h, List.map_map]
  apply List.map_congr_left
  intro kv _
  by_cases hk : kv.1 = k
  · simp [hk]
  · simp [hk]

theorem anyKey_eq_of_keys_eq {α β : Type} {l : List (String × α)} {l' : List (String × β)}
    (h : l.map Prod.fst = l'.map Prod.fst) (k : String) :
    l.any (fun kv => kv.1 = k) = l'.any (fun kv => kv.1 = k) := by
  have key : ∀ (γ : Type) (m : List (String × γ)),
      (m.any fun kv => kv.1 = k) = (m.map Prod.fst).any (fun x => x = k) := by
    intro γ m
    induction m with
    | nil => rfl
    | cons a t ih => simp [List.any_cons, ih]
  rw [key _ l, key _ l', h]

/-- `generate_sections_node` preserves the loop invariant
`len(sections) == current_section_index`: the guard branches change
neither field, and both producing branches append exactly one section
and increment the cursor by one. -/
theorem generate_sections_node_invariant (llm : Backend) (st : AgentState)
    (h : st.sections.length = st.current_section_index) :
    (generate_sections_node llm st).sections.length =
      (generate_sections_node llm st).current_section_index := by
  unfold generate_sections_node
  split_ifs with h1 h2
  · exact h
  · exact h
  · dsimp only
    split_ifs with h3
    · simp [h]
    · simp [h]

/-- Witness for `generate_sections_node_invariant` at a concrete state
and backend. -/
theorem generate_sections_node_invariant_witness :
    (⟨[("OBJETIVOS", "desc")], "tdr", 0, [], [], 0, "generate_sections"⟩ :
        AgentState).sections.length =
      (⟨[("OBJETIVOS", "desc")], "tdr", 0, [], [], 0, "generate_sections"⟩ :
        AgentState).current_section_index ∧
    (generate_sections_node (fun _ => Except.ok "texto")
        ⟨[("OBJETIVOS", "desc")], "tdr", 0, [], [], 0, "generate_sections"⟩).sections.length =
      (generate_sections_node (fun _ => Except.ok "texto")
        ⟨[("OBJETIVOS", "desc")], "tdr", 0, [], [], 0, "generate_sections"⟩).current_section_index :=
  ⟨rfl, generate_sections_node_invariant (fun _ => Except.ok "texto") _ rfl⟩

/-- Claim C3: with a backend that always raises, `generate_section`
returns a string starting `Error en sección …`, which fails the node's
`startswith("Error:")` test, so the success branch runs: the appended
section is the error text under a canonical heading, not the
placeholder (`[Esta sección no pudo generarse correctamente…]`) the
dead failure branch would build.  The loop still advances and hands
over to `combine_proposal`. -/
theorem failing_backend_appends_error_text_not_placeholder :
    (generate_sections_node (fun _ => Except.error "fallo de backend")
        ⟨[("INTRODUCCION", "Contexto del proyecto")], "informacion del TDR", 0, [], [], 0,
          "generate_sections"⟩).sections =
      ["## 1. INTRODUCCION\n\nError en sección INTRODUCCION: Error al generar sección INTRODUCCION: fallo de backend"] ∧
    containsSub ((generate_sections_node (fun _ => Except.error "fallo de backend")
        ⟨[("INTRODUCCION", "Contexto del proyecto")], "informacion del TDR", 0, [], [], 0,
          "generate_sections"⟩).sections.headD "").data
      "[Esta sección no pudo generarse".data = false ∧
    containsSub ((generate_sections_node (fun _ => Except.error "fallo de backend")
        ⟨[("INTRODUCCION", "Contexto del proyecto")], "informacion del TDR", 0, [], [], 0,
          "generate_sections"⟩).sections.headD "").data
      "Error en sección".data = true ∧
    (generate_sections_node (fun _ => Except.error "fallo de backend")
      (generate_sections_node (fun _ => Except.error "fallo de backend")
        ⟨[("INTRODUCCION", "Contexto del proyecto")], "informacion del TDR", 0, [], [], 0,
          "generate_sections"⟩)).next_step = "combine_proposal" := by
  refine ⟨?_, ?_, ?_, ?_⟩ <;> rfl

/-- Claim C4, counterexample: for heading numbers `1, 3, 2` the literal
in-order substitution of `fix_issues` first rewrites `## 3. ` to
`## 2. ` and then rewrites both occurrences of `## 2. ` to `## 3. `,
producing `1, 3, 3` instead of `1, 2, 3`. -/
theorem fix_issues_nonmonotone_counterexample :
    (validateNumbering "## 1. A\n## 3. B\n## 2. C\n").valid = false ∧
    chapterNums ("## 1. A\n## 3. B\n## 2. C\n" : String).data = [1, 3, 2] ∧
    fixIssues "## 1. A\n## 3. B\n## 2. C\n" false = "## 1. A\n## 3. B\n## 3. C\n" ∧
    chapterNums (fixIssues "## 1. A\n## 3. B\n## 2. C\n" false).data = [1, 3, 3] := by
  refine ⟨?_, ?_, ?_, ?_⟩ <;> rfl

/-- Claim C4 (amended): whenever the top-level heading numbers are not
exactly `1..n`, `validate_proposal` reports `numbering.valid == False`
with the issue citing the offending numbers; `fix_issues` renumbers by
literal in-order substitution, which yields `1, 2, 3` on the spec's
skipped-number example (`1, 2, 4`) — but not on every invalid document
(see `fix_issues_nonmonotone_counterexample`). -/
theorem numbering_validation_and_example_repair (doc : String)
    (h : chapterNums doc.data ≠ List.range' 1 (chapterNums doc.data).length) :
    (validateNumbering doc).valid = false ∧
    chapterIssue (chapterNums doc.data) (List.range' 1 (chapterNums doc.data).length) ∈
      (validateNumbering doc).issues ∧
    chapterNums (fixIssues
      "# PROPUESTA TÉCNICA\n## 1. INTRODUCCIÓN\ntexto\n## 2. OBJETIVOS\ntexto\n## 4. ALCANCE\ntexto\n"
      false).data = [1, 2, 3] := by
  refine ⟨by simp [validateNumbering, h], by simp [validateNumbering, h], by rfl⟩

/-- Witness for `numbering_validation_and_example_repair` on a document
whose single chapter is numbered `2`. -/
theorem numbering_validation_and_example_repair_witness :
    chapterNums ("## 2. A\n" : String).data ≠
        List.range' 1 (chapterNums ("## 2. A\n" : String).data).length ∧
      (validateNumbering "## 2. A\n").valid = false :=
  ⟨by decide, (numbering_validation_and_example_repair "## 2. A\n" (by decide)).1⟩

theorem subLoop_fst_eq_hierOk (l : List (Nat × Nat)) :
    ∀ st : Option (Nat × Nat), (subLoop st l).1 = hierOk st l := by
  induction l with
  | nil => intro st; cases st <;> rfl
  | cons p rest ih =>
    intro st
    cases st with
    | none => simpa [subLoop, hierOk] using ih (some p)
    | some pr =>
      obtain ⟨pc, ps⟩ := pr
      obtain ⟨c, s⟩ := p
      by_cases h1 : c = pc
      · by_cases h2 : s = ps + 1 <;> simp [subLoop, hierOk, h1, h2, ih]
      · by_cases h3 : pc < c
        · by_cases h4 : s = 1 <;> simp [subLoop, hierOk, h1, h3, h4, ih]
        · simp [subLoop, hierOk, h1, h3]

/-- Claim C5, counterexample: in `## 1. A\n## 2. B\n### 3.2 C\n` the
only subsection label is `3.2` — the first subsection of its (new)
chapter and not `.1`, a hierarchy violation under the claim — yet the
first label of a document is never checked, and the chapter captures
(the `###` line contributing its chapter number) are sequential, so
`numbering.valid` is `True`. -/
theorem first_subsection_unchecked_counterexample :
    (validateNumbering "## 1. A\n## 2. B\n### 3.2 C\n").valid = true ∧
    subCaptures ("## 1. A\n## 2. B\n### 3.2 C\n" : String).data = [(3, 2)] ∧
    chapterNums ("## 1. A\n## 2. B\n### 3.2 C\n" : String).data = [1, 2, 3] := by
  refine ⟨?_, ?_, ?_⟩ <;> rfl

/-- Claim C5 (amended): `numbering.valid` is `True` exactly when the
chapter numbers are `1..n` and the subsection labels pass the stateful
hierarchy check `hierOk`, which accepts the first label unconditionally,
requires same-chapter successors to increment by exactly one, requires a
larger chapter to restart at `.1`, and rejects chapter decreases
(keeping the previous reference label; the new-chapter issue records
only the offending label, not a pair). -/
theorem numbering_valid_iff_chapters_and_hierarchy (doc : String) :
    (validateNumbering doc).valid = true ↔
      (chapterNums doc.data = List.range' 1 (chapterNums doc.data).length ∧
        hierOk none (subCaptures doc.data) = true) := by
  unfold validateNumbering
  dsimp only
  rw [subLoop_fst_eq_hierOk]
  split
  case isTrue hn =>
    dsimp only
    rw [Bool.true_and]
    exact ⟨fun h2 => ⟨hn, h2⟩, fun h2 => h2.2⟩
  case isFalse hn =>
    dsimp only
    rw [Bool.false_and]
    exact ⟨fun h2 => absurd h2 (by simp), fun h2 => absurd h2.1 hn⟩

theorem findPat_none_of_head_not_mem {c : Char} {p l : List Char} (h : c ∉ l) :
    findPat (c :: p) l = none := by
  induction l with
  | nil => rfl
  | cons a t ih =>
    have hne : ¬(c = a) := fun e => h (e ▸ List.mem_cons_self a t)
    have hpre : (c :: p).isPrefixOf (a :: t) = false := by
      simp [List.isPrefixOf, hne]
    rw [findPat, if_neg (by simp [hpre]), ih (fun hm => h (List.mem_cons_of_mem a hm))]
    rfl

theorem removeThink_eq_of_no_lt {l : List Char} (h : '<' ∉ l) : removeThink l = l := by
  have hfp : findPat thinkOpen l = none := findPat_none_of_head_not_mem h
  unfold removeThink
  cases hfl : l.length with
  | zero => rfl
  | succ n => rw [removeThinkF, hfp]

theorem count_takeWhile_eq_zero {x : Char} {p : Char → Bool} {l : List Char}
    (hp : p x = false) : (l.takeWhile p).count x = 0 := by
  rw [List.count_eq_zero]
  intro hmem
  rw [List.mem_takeWhile_imp hmem] at hp
  cases hp

theorem processRun_count_le (run : List Char) : (processRun run).count '\n' ≤ 2 := by
  unfold processRun
  split
  case isTrue hge =>
    have h1 : (run.takeWhile (fun c => !decide (c = '\n'))).count '\n' = 0 :=
      count_takeWhile_eq_zero (by simp)
    have h2 : (run.reverse.takeWhile (fun c => !decide (c = '\n'))).count '\n' = 0 :=
      count_takeWhile_eq_zero (by simp)
    simp [List.count_append, List.count_cons, h1, h2]
  case isFalse hlt => omega

theorem processRun_eq_of_le {run : List Char} (h : run.count '\n' ≤ 2) :
    processRun run = run := by
  unfold processRun
  rw [if_neg (by omega)]

theorem mem_processRun {a : Char} {run : List Char} (h : a ∈ processRun run) :
    a ∈ run ∨ a = '\n' := by
  unfold processRun at h
  split at h
  · rcases List.mem_append.1 h with h1 | h2
    · exact Or.inl (List.Sublist.mem h1 (List.takeWhile_prefix _).sublist)
    · rw [List.mem_cons, List.mem_cons] at h2
      rcases h2 with rfl | rfl | h4
      · exact Or.inr rfl
      · exact Or.inr rfl
      · have h5 : a ∈ run.reverse.takeWhile (fun c => c ≠ '\n') := List.mem_reverse.mp h4
        have h6 : a ∈ run.reverse := List.Sublist.mem h5 (List.takeWhile_prefix _).sublist
        exact Or.inl (List.mem_reverse.mp h6)
  · exact Or.inl h

theorem collapseBlankF_nil (fuel : Nat) : collapseBlankF fuel [] = [] := by
  cases fuel <;> rfl

theorem mem_collapseBlankF :
    ∀ {fuel : Nat} {l : List Char} {a : Char}, a ∈ collapseBlankF fuel l → a ∈ l ∨ a = '\n' := by
  intro fuel
  induction fuel with
  | zero => exact fun h => Or.inl h
  | succ n ih =>
    intro l a h
    match l with
    | [] => rw [collapseBlankF_nil] at h; exact absurd h (List.not_mem_nil a)
    | c :: t =>
      by_cases hc : pySpace c
      · rw [show collapseBlankF (n + 1) (c :: t) =
            processRun ((c :: t).takeWhile pySpace) ++
              collapseBlankF n ((c :: t).dropWhile pySpace) from by
          simp [collapseBlankF, hc]] at h
        rcases List.mem_append.1 h with h1 | h2
        · rcases mem_processRun h1 with h3 | h3
          · exact Or.inl (List.Sublist.mem h3 (List.takeWhile_prefix _).sublist)
          · exact Or.inr h3
        · rcases ih h2 with h3 | h3
          · exact Or.inl (List.Sublist.mem h3 (List.dropWhile_suffix _).sublist)
          · exact Or.inr h3
      · rw [show collapseBlankF (n + 1) (c :: t) = c :: collapseBlankF n t from by
          simp [collapseBlankF, hc]] at h
        rw [List.mem_cons] at h
        rcases h with rfl | h2
        · exact Or.inl (List.mem_cons_self a t)
        · rcases ih h2 with h3 | h3
          · exact Or.inl (List.mem_cons_of_mem c h3)
          · exact Or.inr h3

theorem dropWhile_eq_cons_imp {α : Type} {p : α → Bool} {l t : List α} {h : α}
    (he : l.dropWhile p = h :: t) : p h = false := by
  induction l with
  | nil => simp at he
  | cons a t' ih =>
    by_cases hp : p a
    · rw [List.dropWhile_cons_of_pos hp] at he; exact ih he
    · rw [List.dropWhile_cons_of_neg hp] at he
      cases he
      simpa using hp

theorem collapseBlankF_cons_nonspace {c : Char} {t : List Char} {fuel : Nat}
    (h : pySpace c = false) : ∃ t', collapseBlankF fuel (c :: t) = c :: t' := by
  cases fuel with
  | zero => exact ⟨t, rfl⟩
  | succ n => exact ⟨collapseBlankF n t, by simp [collapseBlankF, h]⟩

theorem infix_append_cases {α : Type} {A B m : List α} (h : m <:+: A ++ B) :
    m <:+: A ∨ m <:+: B ∨ ∃ hd tl, B = hd :: tl ∧ hd ∈ m := by
  obtain ⟨p, s, hps⟩ := h
  by_cases h1 : p.length + m.length ≤ A.length
  · left
    have hpm : p ++ m <+: A := by
      have hpmP : p ++ m <+: A ++ B := ⟨s, by simpa [List.append_assoc] using hps⟩
      exact List.prefix_of_prefix_length_le hpmP (List.prefix_append A B)
        (by simpa [List.length_append] using h1)
    exact ((List.suffix_append p m).isInfix).trans hpm.isInfix
  · by_cases h2 : A.length ≤ p.length
    · right; left
      have hpA : A <+: p := by
        have hp : p <+: A ++ B := ⟨m ++ s, by simpa [List.append_assoc] using hps⟩
        exact List.prefix_of_prefix_length_le (List.prefix_append A B) hp h2
      obtain ⟨p', rfl⟩ := hpA
      have hB : p' ++ m ++ s = B :=
        @List.append_cancel_left _ A _ _ (by simpa [List.append_assoc] using hps)
      exact ⟨p', s, by simpa [List.append_assoc] using hB⟩
    · right; right
      push_neg at h1 h2
      have hBne : B ≠ [] := by
        intro hBe
        rw [hBe, List.append_nil] at hps
        have := congrArg List.length hps
        simp [List.length_append] at this
        omega
      obtain ⟨hd, tl, rfl⟩ := List.exists_cons_of_ne_nil hBne
      refine ⟨hd, tl, rfl, ?_⟩
      have hidx : A.length < (A ++ hd :: tl).length := by
        simp [List.length_append]
      have hm3 : A.length - p.length < m.length := by omega
      have e1 : (A ++ hd :: tl).get ⟨A.length, hidx⟩ = hd := by
        rw [List.get_eq_getElem, List.getElem_append_right (Nat.le_refl A.length)]
        simp
      have e2 : (A ++ hd :: tl).get ⟨A.length, hidx⟩ =
          m.get ⟨A.length - p.length, hm3⟩ := by
        have hidx2 : A.length < (p ++ (m ++ s)).length := by
          rw [show p ++ (m ++ s) = A ++ hd :: tl from by simpa [List.append_assoc] using hps]
          exact hidx
        have e3 : (A ++ hd :: tl).get ⟨A.length, hidx⟩ =
            (p ++ (m ++ s)).get ⟨A.length, hidx2⟩ := by
          simp only [List.get_eq_getElem]
          congr 1
          simpa [List.append_assoc] using hps.symm
        rw [e3]
        simp only [List.get_eq_getElem]
        rw [List.getElem_append_right (le_of_lt h2), List.getElem_append_left hm3]
      rw [e1] at e2
      have hmem := List.get_mem m (A.length - p.length) hm3
      rw [← e2] at hmem
      exact hmem

theorem goodWs_of_factor {l m : List Char} (h : GoodWs l) (hm : m <:+: l) : GoodWs m :=
  fun x hx hs => h x (hx.trans hm) hs

theorem goodWs_nil : GoodWs [] := by
  intro m hm _
  rw [List.eq_nil_of_infix_nil hm]
  simp

theorem goodWs_collapseBlankF :
    ∀ (fuel : Nat) (l : List Char), l.length ≤ fuel → GoodWs (collapseBlankF fuel l) := by
  intro fuel
  induction fuel with
  | zero =>
    intro l hl
    rw [List.length_eq_zero.mp (Nat.le_zero.mp hl)]
    exact goodWs_nil
  | succ n ih =>
    intro l hl
    match l with
    | [] => rw [collapseBlankF_nil]; exact goodWs_nil
    | c :: t =>
      have hlt : t.length ≤ n := by simpa using hl
      by_cases hc : pySpace c
      · rw [show collapseBlankF (n + 1) (c :: t) =
            processRun ((c :: t).takeWhile pySpace) ++
              collapseBlankF n ((c :: t).dropWhile pySpace) from by
          simp [collapseBlankF, hc]]
        have hrest : ((c :: t).dropWhile pySpace).length ≤ n := by
          rw [List.dropWhile_cons_of_pos hc]
          exact le_trans (show (t.dropWhile pySpace).length ≤ t.length from
            (List.dropWhile_suffix pySpace).length_le) hlt
        have hB : GoodWs (collapseBlankF n ((c :: t).dropWhile pySpace)) := ih _ hrest
        intro m hm hms
        rcases infix_append_cases hm with hA | hBm | ⟨hd, tl, hB2, hdm⟩
        · exact le_trans (hA.sublist.count_le '\n') (processRun_count_le _)
        · exact hB m hBm hms
        · rcases hdw : (c :: t).dropWhile pySpace with _ | ⟨h0, t0⟩
          · rw [hdw, collapseBlankF_nil] at hB2
            cases hB2
          · have hp0 : pySpace h0 = false := dropWhile_eq_cons_imp hdw
            obtain ⟨t', ht'⟩ := (show ∃ t2, collapseBlankF n (h0 :: t0) = h0 :: t2 from
              collapseBlankF_cons_nonspace hp0)
            rw [hdw, ht'] at hB2
            cases hB2
            rw [hms hd hdm] at hp0
            cases hp0
      · rw [show collapseBlankF (n + 1) (c :: t) = c :: collapseBlankF n t from by
          simp [collapseBlankF, hc]]
        intro m hm hms
        rcases List.infix_cons_iff.mp hm with hpre | hinf
        · match m, hpre with
          | [], _ => simp
          | x :: m', hp =>
            obtain ⟨t2, ht2⟩ := hp
            rw [List.cons_append] at ht2
            injection ht2 with hx _
            rw [hx] at hms
            exact absurd (hms c (List.mem_cons_self c m')) hc
        · exact ih t hlt m hinf hms

theorem collapseBlankF_eq_self_of_good :
    ∀ (fuel : Nat) (l : List Char), l.length ≤ fuel → GoodWs l → collapseBlankF fuel l = l := by
  intro fuel
  induction fuel with
  | zero =>
    intro l hl _
    rw [List.length_eq_zero.mp (Nat.le_zero.mp hl)]
    rfl
  | succ n ih =>
    intro l hl hg
    match l with
    | [] => rfl
    | c :: t =>
      have hlt : t.length ≤ n := by simpa using hl
      by_cases hc : pySpace c
      · rw [show collapseBlankF (n + 1) (c :: t) =
            processRun ((c :: t).takeWhile pySpace) ++
              collapseBlankF n ((c :: t).dropWhile pySpace) from by
          simp [collapseBlankF, hc]]
        have hrun : ((c :: t).takeWhile pySpace).count '\n' ≤ 2 :=
          hg _ (List.takeWhile_prefix pySpace).isInfix
            (fun x hx => List.mem_takeWhile_imp hx)
        have hrest : ((c :: t).dropWhile pySpace).length ≤ n := by
          rw [List.dropWhile_cons_of_pos hc]
          exact le_trans (show (t.dropWhile pySpace).length ≤ t.length from
            (List.dropWhile_suffix pySpace).length_le) hlt
        rw [processRun_eq_of_le hrun,
          ih _ hrest (goodWs_of_factor hg (List.dropWhile_suffix pySpace).isInfix),
          List.takeWhile_append_dropWhile]
      · rw [show collapseBlankF (n + 1) (c :: t) = c :: collapseBlankF n t from by
          simp [collapseBlankF, hc]]
        rw [ih t hlt (goodWs_of_factor hg (List.suffix_cons c t).isInfix)]

theorem rstrip_extend (l : List Char) : rstrip l <+: l := by
  unfold rstrip
  exact List.reverse_suffix.mp (by
    simpa using (show l.reverse.dropWhile pySpace <:+ l.reverse from
      List.dropWhile_suffix pySpace))

theorem pyStrip_factor (l : List Char) : pyStrip l <:+: l :=
  ((rstrip_extend (lstrip l)).isInfix).trans (List.dropWhile_suffix pySpace).isInfix

theorem mem_pyStrip {a : Char} {l : List Char} (h : a ∈ pyStrip l) : a ∈ l :=
  List.Sublist.mem h (pyStrip_factor l).sublist

theorem dropWhile_idem {p : Char → Bool} (l : List Char) :
    (l.dropWhile p).dropWhile p = l.dropWhile p := by
  rcases hdw : l.dropWhile p with _ | ⟨h0, t0⟩
  · rfl
  · rw [List.dropWhile_cons_of_neg (by simp [dropWhile_eq_cons_imp hdw])]

theorem rstrip_idem (l : List Char) : rstrip (rstrip l) = rstrip l := by
  unfold rstrip
  rw [List.reverse_reverse, dropWhile_idem]

theorem pyStrip_idem (l : List Char) : pyStrip (pyStrip l) = pyStrip l := by
  unfold pyStrip
  have hls : lstrip (rstrip (lstrip l)) = rstrip (lstrip l) := by
    rcases hdw : lstrip l with _ | ⟨h0, t0⟩
    · rfl
    · have hp0 : pySpace h0 = false := dropWhile_eq_cons_imp hdw
      rcases hpre : rstrip (h0 :: t0) with _ | ⟨x, xs⟩
      · rfl
      · have hx : x = h0 := by
          have hh := rstrip_extend (h0 :: t0)
          rw [hpre] at hh
          obtain ⟨t2, ht2⟩ := hh
          rw [List.cons_append] at ht2
          injection ht2 with hx _
        unfold lstrip
        rw [List.dropWhile_cons_of_neg (by rw [hx, hp0]; simp)]
  rw [hls, rstrip_idem]

theorem removeHeadingsF_eq_of_no_hash :
    ∀ (fuel : Nat) (l : List Char), '#' ∉ l → removeHeadingsF fuel l = l := by
  intro fuel
  induction fuel with
  | zero => intro l _; rfl
  | succ n ih =>
    intro l hl
    match l with
    | [] => rfl
    | c :: t =>
      have hch : ¬(c = '#') := fun e => hl (e ▸ List.mem_cons_self c t)
      have hhash : ((c :: t).takeWhile (fun c => c = '#')).isEmpty = true := by
        rw [List.takeWhile_cons_of_neg (by simpa using hch)]
        rfl
      rw [removeHeadingsF]
      rw [if_pos (by simp [hhash])]
      rcases hdw : (c :: t).dropWhile (fun x => x ≠ '\n') with _ | ⟨d, rest⟩
      · simp [hdw]
      · have hd : d = '\n' := by
          have := dropWhile_eq_cons_imp hdw
          simpa using this
        have hrest : '#' ∉ rest := by
          intro hmem
          exact hl (List.Sublist.mem (List.mem_cons_of_mem d hmem)
            ((hdw ▸ (show (c :: t).dropWhile (fun x => x ≠ '\n') <:+ c :: t from
              List.dropWhile_suffix (fun x => x ≠ '\n'))).sublist))
        have hsplit : (c :: t).takeWhile (fun x => x ≠ '\n') ++ '\n' :: rest = c :: t := by
          have := List.takeWhile_append_dropWhile (fun x : Char => x ≠ '\n') (c :: t)
          rw [hdw, hd] at this
          exact this
        simp only [hdw]
        rw [ih rest hrest]
        exact hsplit

theorem normHeadingsF_eq_of_no_hash :
    ∀ (fuel : Nat) (l : List Char), '#' ∉ l → normHeadingsF fuel l = l := by
  intro fuel
  induction fuel with
  | zero => intro l _; rfl
  | succ n ih =>
    intro l hl
    match l with
    | [] => rfl
    | c :: t =>
      have hch : ¬(c = '#') := fun e => hl (e ▸ List.mem_cons_self c t)
      have hhash : ((c :: t).takeWhile (fun c => c = '#')).length = 0 := by
        rw [List.takeWhile_cons_of_neg (by simpa using hch)]
        rfl
      rw [normHeadingsF]
      rw [if_neg (by simp [hhash])]
      rcases hdw : (c :: t).dropWhile (fun x => x ≠ '\n') with _ | ⟨d, rest⟩
      · simp [hdw]
      · have hd : d = '\n' := by
          have := dropWhile_eq_cons_imp hdw
          simpa using this
        have hrest : '#' ∉ rest := by
          intro hmem
          exact hl (List.Sublist.mem (List.mem_cons_of_mem d hmem)
            ((hdw ▸ (show (c :: t).dropWhile (fun x => x ≠ '\n') <:+ c :: t from
              List.dropWhile_suffix (fun x => x ≠ '\n'))).sublist))
        have hsplit : (c :: t).takeWhile (fun x => x ≠ '\n') ++ '\n' :: rest = c :: t := by
          have := List.takeWhile_append_dropWhile (fun x : Char => x ≠ '\n') (c :: t)
          rw [hdw, hd] at this
          exact this
        simp only [hdw]
        rw [ih rest hrest]
        exact hsplit

theorem cleanPipe_idem (hdpass : List Char → List Char)
    (hid : ∀ x : List Char, '#' ∉ x → hdpass x = x)
    (l : List Char) (h1 : '<' ∉ l) (h2 : '#' ∉ l) :
    pyStrip (hdpass (collapseBlank (filterAllowed (removeThink
      (pyStrip (hdpass (collapseBlank (filterAllowed (removeThink l))))))))) =
      pyStrip (hdpass (collapseBlank (filterAllowed (removeThink l)))) := by
  rw [removeThink_eq_of_no_lt h1]
  have hmemK : ∀ a ∈ collapseBlank (filterAllowed l), a ∈ filterAllowed l ∨ a = '\n' :=
    fun a ha => mem_collapseBlankF ha
  have hnoHashK : '#' ∉ collapseBlank (filterAllowed l) := by
    intro hmem
    rcases hmemK _ hmem with hF | he
    · exact h2 (List.mem_of_mem_filter hF)
    · cases he
  rw [hid _ hnoHashK]
  have hmemY : ∀ a ∈ pyStrip (collapseBlank (filterAllowed l)),
      a ∈ filterAllowed l ∨ a = '\n' := fun a ha => hmemK a (mem_pyStrip ha)
  have hrt2 : removeThink (pyStrip (collapseBlank (filterAllowed l))) =
      pyStrip (collapseBlank (filterAllowed l)) := by
    apply removeThink_eq_of_no_lt
    intro hmem
    rcases hmemY _ hmem with hF | he
    · exact h1 (List.mem_of_mem_filter hF)
    · cases he
  have hfa : filterAllowed (pyStrip (collapseBlank (filterAllowed l))) =
      pyStrip (collapseBlank (filterAllowed l)) := by
    apply List.filter_eq_self.mpr
    intro a ha
    rcases hmemY a ha with hF | he
    · exact List.of_mem_filter hF
    · rw [he]; rfl
  have hgoodY : GoodWs (pyStrip (collapseBlank (filterAllowed l))) :=
    goodWs_of_factor (goodWs_collapseBlankF (filterAllowed l).length (filterAllowed l) le_rfl)
      (pyStrip_factor _)
  have hcb : collapseBlank (pyStrip (collapseBlank (filterAllowed l))) =
      pyStrip (collapseBlank (filterAllowed l)) :=
    collapseBlankF_eq_self_of_good _ _ le_rfl hgoodY
  have hnoHashY : '#' ∉ pyStrip (collapseBlank (filterAllowed l)) :=
    fun hm => hnoHashK (mem_pyStrip hm)
  rw [hrt2, hfa, hcb, hid _ hnoHashY, pyStrip_idem]

/-- Claim C1, counterexample: stripping the disallowed bullet character
from `<thi•nk>a</think>` re-forms a complete reasoning-tag span that
only a second application of the normalizer removes — both
`clean_section_content` and `clean_retrieved_content` map the input to
`<think>a</think>` and map that to the empty string, so neither is
idempotent. -/
theorem normalize_not_idempotent_counterexample :
    clean_section_content (clean_section_content "<thi•nk>a</think>") ≠
        clean_section_content "<thi•nk>a</think>" ∧
      clean_retrieved_content (clean_retrieved_content "<thi•nk>a</think>") ≠
        clean_retrieved_content "<thi•nk>a</think>" := by
  refine ⟨?_, ?_⟩ <;> decide

/-- Claim C1 (amended): the cleaning passes interact — tag removal,
character stripping and heading deletion can each create new matches
for an earlier pass — so idempotence holds on inputs that contain
neither `<` (no reasoning-tag fragments) nor `#` (no heading markers):
for such text both `clean_section_content` and
`clean_retrieved_content` satisfy `normalize(normalize(x)) ==
normalize(x)`. -/
theorem normalize_idempotent_of_no_markers (s : String)
    (h1 : '<' ∉ s.data) (h2 : '#' ∉ s.data) :
    clean_section_content (clean_section_content s) = clean_section_content s ∧
      clean_retrieved_content (clean_retrieved_content s) = clean_retrieved_content s := by
  constructor
  · exact congrArg String.mk
      (cleanPipe_idem removeHeadings
        (fun x hx => removeHeadingsF_eq_of_no_hash x.length x hx) s.data h1 h2)
  · exact congrArg String.mk
      (cleanPipe_idem normHeadings
        (fun x hx => normHeadingsF_eq_of_no_hash x.length x hx) s.data h1 h2)

/-- Witness for `normalize_idempotent_of_no_markers` on a marker-free
text with a run of blank lines. -/
theorem normalize_idempotent_of_no_markers_witness :
    ('<' ∉ ("hola  mundo\n\n\n\nfin" : String).data ∧
      '#' ∉ ("hola  mundo\n\n\n\nfin" : String).data) ∧
    clean_section_content (clean_section_content "hola  mundo\n\n\n\nfin") =
        clean_section_content "hola  mundo\n\n\n\nfin" ∧
      clean_retrieved_content (clean_retrieved_content "hola  mundo\n\n\n\nfin") =
        clean_retrieved_content "hola  mundo\n\n\n\nfin" :=
  ⟨⟨by decide, by decide⟩,
    normalize_idempotent_of_no_markers "hola  mundo\n\n\n\nfin" (by decide) (by decide)⟩

/-- C6: retrieval cardinality and fallback.  With an uninitialized
store (`db = none`) the search returns `[]` and, being total, never
raises; with a ready store whose query returns no candidates it also
returns `[]`; and whenever the underlying query (asked for `3*k`
candidates with the combined section/request query) yields any
candidates, the result has between `1` and `k` entries and equals the
candidates filtered by section-name variant — falling back to the
unfiltered candidate list when the filter removes everything — truncated
to `k` and formatted. -/
theorem retrieval_cardinality_and_fallback
    (q : String → Nat → List (RDoc × Int)) (query section_name : String) (k : Nat)
    (results : List (RDoc × Int)) (hk : 1 ≤ k)
    (hres : q ("Sección: " ++ section_name ++ ". " ++ query) (k * 3) = results) :
    search_similar_content none query section_name k = [] ∧
    (results = [] → search_similar_content (some q) query section_name k = []) ∧
    (results ≠ [] →
      1 ≤ (search_similar_content (some q) query section_name k).length ∧
      (search_similar_content (some q) query section_name k).length ≤ k ∧
      search_similar_content (some q) query section_name k =
        ((if (results.filter (fun ds => matchesVariant section_name ds.1)).isEmpty
            then results
            else results.filter (fun ds => matchesVariant section_name ds.1)).take k).map
          formatResult) := by
  refine ⟨rfl, ?_, ?_⟩
  · intro h
    simp [search_similar_content, hres, h]
  · intro h
    have hne : results.isEmpty = false := by
      simpa [List.isEmpty_iff] using h
    have hmain : search_similar_content (some q) query section_name k =
        ((if (results.filter (fun ds => matchesVariant section_name ds.1)).isEmpty
            then results
            else results.filter (fun ds => matchesVariant section_name ds.1)).take k).map
          formatResult := by
      simp only [search_similar_content, hres, hne]
      by_cases hfe : (results.filter (fun ds => matchesVariant section_name ds.1)).isEmpty
      · simp [hfe]
      · simp [hfe]
    refine ⟨?_, ?_, hmain⟩
    · rw [hmain]
      have hchoselen : 1 ≤ (if (results.filter
            (fun ds => matchesVariant section_name ds.1)).isEmpty
          then results
          else results.filter (fun ds => matchesVariant section_name ds.1)).length := by
        by_cases hfe : (results.filter (fun ds => matchesVariant section_name ds.1)).isEmpty
        · simpa [hfe, Nat.succ_le_iff, List.length_pos] using h
        · have : results.filter (fun ds => matchesVariant section_name ds.1) ≠ [] := by
            simpa [List.isEmpty_iff] using hfe
          simpa [hfe, Nat.succ_le_iff, List.length_pos] using this
      simp only [List.length_map, List.length_take]
      exact le_min hk hchoselen
    · rw [hmain]
      simp only [List.length_map, List.length_take]
      exact min_le_left _ _

/-- Witness for `retrieval_cardinality_and_fallback`: the empty-store
guard on one concrete call, and the 'at most k' bound on a ready store
holding one matching passage. -/
theorem retrieval_cardinality_and_fallback_witness :
    search_similar_content none "obras civiles" "alcance" 2 = [] ∧
    (search_similar_content
        (some (fun _ _ => [(⟨"Alcance del proyecto: obra civil", "P1", "data/p1.pdf"⟩, 7)]))
        "obras civiles" "alcance" 2).length ≤ 2 :=
  ⟨(retrieval_cardinality_and_fallback (fun _ _ => []) "obras civiles" "alcance" 2 []
      (by decide) rfl).1,
    (((retrieval_cardinality_and_fallback
        (fun _ _ => [(⟨"Alcance del proyecto: obra civil", "P1", "data/p1.pdf"⟩, 7)])
        "obras civiles" "alcance" 2
        [(⟨"Alcance del proyecto: obra civil", "P1", "data/p1.pdf"⟩, 7)]
        (by decide) rfl).2.2) (List.cons_ne_nil _ _)).2.1⟩

theorem dictSet_any_key_mono {α : Type} (p : String → Bool) {l : List (String × α)}
    (k : String) (v : α) (h : l.any (fun kv => p kv.1) = true) :
    (dictSet l k v).any (fun kv => p kv.1) = true := by
  rcases List.any_eq_true.mp h with ⟨kv, hm, hp⟩
  unfold dictSet
  split
  · refine List.any_eq_true.mpr
      ⟨(if kv.1 = k then (k, v) else kv), List.mem_map_of_mem _ hm, ?_⟩
    by_cases hk : kv.1 = k
    · rw [hk] at hp
      simpa [hk] using hp
    · simpa [hk] using hp
  · exact List.any_eq_true.mpr ⟨kv, List.mem_append_left _ hm, hp⟩

theorem dictSet_any_key_self {α : Type} (p : String → Bool) (l : List (String × α))
    (k : String) (v : α) (h : p k = true) :
    (dictSet l k v).any (fun kv => p kv.1) = true := by
  unfold dictSet
  split
  · next hany =>
    rcases List.any_eq_true.mp hany with ⟨kv, hm, hk⟩
    refine List.any_eq_true.mpr
      ⟨(if kv.1 = k then (k, v) else kv), List.mem_map_of_mem _ hm, ?_⟩
    have hk' : kv.1 = k := by simpa using hk
    simp [hk', h]
  · refine List.any_eq_true.mpr
      ⟨(k, v), List.mem_append_right _ (List.mem_singleton.mpr rfl), ?_⟩
    simpa using h

theorem foldl_dictSet_any_mono (p : String → Bool) :
    ∀ (ms : List String) (acc : List (String × JValue)) (f : String → JValue),
      acc.any (fun kv => p kv.1) = true →
      (ms.foldl (fun a x => dictSet a (x ++ "_SECCION") (f x)) acc).any
        (fun kv => p kv.1) = true := by
  intro ms
  induction ms with
  | nil => intro acc f h; simpa using h
  | cons m t ih =>
    intro acc f h
    rw [List.foldl_cons]
    exact ih _ f (dictSet_any_key_mono p _ _ h)

theorem foldl_dictSet_any_mem (p : String → Bool) :
    ∀ (ms : List String) (acc : List (String × JValue)) (f : String → JValue) (r : String),
      r ∈ ms → p (r ++ "_SECCION") = true →
      (ms.foldl (fun a x => dictSet a (x ++ "_SECCION") (f x)) acc).any
        (fun kv => p kv.1) = true := by
  intro ms
  induction ms with
  | nil => intro acc f r hr _; exact absurd hr (List.not_mem_nil r)
  | cons m t ih =>
    intro acc f r hr hp
    rw [List.foldl_cons]
    rcases List.mem_cons.mp hr with rfl | hmem
    · exact foldl_dictSet_any_mono p t _ f (dictSet_any_key_self p acc _ _ hp)
    · exact ih _ f r hmem hp

theorem keyCovers_seccion : ∀ r ∈ requiredSections, keyCovers (r ++ "_SECCION") r = true := by
  decide

theorem completeOutline_covers (kvs : List (String × JValue)) :
    ∀ req ∈ requiredSections,
      (completeOutline kvs).any (fun kv => keyCovers kv.1 req) = true := by
  intro req hreq
  unfold completeOutline
  by_cases hc : kvs.any (fun kv => keyCovers kv.1 req) = true
  · exact foldl_dictSet_any_mono (fun s => keyCovers s req) _ _ _ hc
  · simp only [Bool.not_eq_true] at hc
    have hmem : req ∈ requiredSections.filter
        (fun r => !(kvs.any (fun kv => keyCovers kv.1 r))) :=
      List.mem_filter.mpr ⟨hreq, by simp [hc]⟩
    exact foldl_dictSet_any_mem (fun s => keyCovers s req) _ _ _ req hmem
      (keyCovers_seccion req hreq)

/-- C7 counterexample: on the response `{"FOO": "bar",}` the first
parse fails (strict JSON rejects the trailing comma), the comma repair
produces `{"FOO": "bar"}`, which parses — and `generate_index`
returns it verbatim, skipping the required-identity completion: none of
the twelve required section identities occurs in the returned
outline. -/
theorem repaired_outline_missing_identities_counterexample :
    generate_index_from_response "\x7b\"FOO\": \"bar\",\x7d" = "\x7b\"FOO\": \"bar\"\x7d" ∧
    requiredSections.any
      (fun req => containsSub ("\x7b\"FOO\": \"bar\"\x7d" : String).data req.data) = false :=
  ⟨rfl, by decide⟩

/-- C7 (amended): the outline guarantee holds on two of the three
paths.  If the cleaned response parses as a JSON object,
`generate_index` returns the serialized completion, and the completion
covers all twelve required identities; if parsing fails and the
trailing-comma repair fails too, the serialized deterministic default
outline (which covers all twelve identities) is returned; but if the
repaired text parses, it is returned verbatim with no identity
completion. -/
theorem outline_repair_characterization (response : String) :
    (∀ kvs, jsonLoads ⟨outlineClean response⟩ = some (JValue.obj kvs) →
       generate_index_from_response response = jdump (JValue.obj (completeOutline kvs)) ∧
       ∀ req ∈ requiredSections,
         (completeOutline kvs).any (fun kv => keyCovers kv.1 req) = true) ∧
    (jsonLoads ⟨outlineClean response⟩ = none →
       ∀ v, jsonLoads ⟨fixTrailingCommas (outlineClean response)⟩ = some v →
         generate_index_from_response response = ⟨fixTrailingCommas (outlineClean response)⟩) ∧
    (jsonLoads ⟨outlineClean response⟩ = none →
       jsonLoads ⟨fixTrailingCommas (outlineClean response)⟩ = none →
       generate_index_from_response response = jdump (JValue.obj defaultIndex)) ∧
    (∀ req ∈ requiredSections, defaultIndex.any (fun kv => keyCovers kv.1 req) = true) := by
  refine ⟨?_, ?_, ?_, by decide⟩
  · intro kvs hparse
    refine ⟨?_, completeOutline_covers kvs⟩
    simp only [generate_index_from_response]
    rw [hparse]
  · intro hnone v hsome
    simp only [generate_index_from_response]
    rw [hnone, hsome]
  · intro hnone hnone2
    simp only [generate_index_from_response]
    rw [hnone, hnone2]

/-- Witness for `outline_repair_characterization`: the object path on a
response holding one key, and the double-failure path on a response with
no brace at all. -/
theorem outline_repair_characterization_witness :
    (generate_index_from_response "\x7b\"INTRODUCCION\": \"x\"\x7d" =
        jdump (JValue.obj (completeOutline [("INTRODUCCION", JValue.str "x")])) ∧
      ∀ req ∈ requiredSections,
        (completeOutline [("INTRODUCCION", JValue.str "x")]).any
          (fun kv => keyCovers kv.1 req) = true) ∧
    generate_index_from_response "sin esquema" = jdump (JValue.obj defaultIndex) :=
  ⟨(outline_repair_characterization "\x7b\"INTRODUCCION\": \"x\"\x7d").1
      [("INTRODUCCION", JValue.str "x")] rfl,
    ((outline_repair_characterization "sin esquema").2.2.1 rfl rfl)⟩

theorem pySpace_toNat {c : Char} (h : pySpace c = true) :
    c.toNat = 0x20 ∨ (0x9 ≤ c.toNat ∧ c.toNat ≤ 0xd) ∨ (0x1c ≤ c.toNat ∧ c.toNat ≤ 0x1f) ∨
      c.toNat = 0x85 ∨ c.toNat = 0xa0 ∨ c.toNat = 0x1680 ∨
      (0x2000 ≤ c.toNat ∧ c.toNat ≤ 0x200a) ∨ c.toNat = 0x2028 ∨ c.toNat = 0x2029 ∨
      c.toNat = 0x202f ∨ c.toNat = 0x205f ∨ c.toNat = 0x3000 := by
  simp [pySpace] at h
  omega

theorem ws_ne_hash {c : Char} (h : pySpace c = true) : ¬(c = '#') := by
  intro he
  rw [he] at h
  exact absurd h (by decide)

theorem pySpace_not_digit {c : Char} (h : pySpace c = true) : c.isDigit = false := by
  by_contra hne
  rw [Bool.not_eq_false] at hne
  have hd : 48 ≤ c.toNat ∧ c.toNat ≤ 57 := by
    simp [Char.isDigit] at hne
    exact hne
  have hs := pySpace_toNat h
  omega

theorem pySpace_not_upperA {c : Char} (h : pySpace c = true) : isUpperA c = false := by
  by_contra hne
  rw [Bool.not_eq_false] at hne
  have hd : 65 ≤ c.toNat ∧ c.toNat ≤ 90 := by
    simp [isUpperA] at hne
    exact hne
  have hs := pySpace_toNat h
  omega

theorem matchAt1_none_of_ws : ∀ l, (∀ c ∈ l, pySpace c = true) → matchAt1 l = none := by
  intro l h
  unfold matchAt1
  split
  · rename_i t
    have ht : (t.takeWhile (fun c => c = '#')).isEmpty = true := by
      rcases t with _ | ⟨c2, t2⟩
      · rfl
      · rw [List.takeWhile_cons_of_neg]
        · rfl
        · have hc2 : pySpace c2 = true := h c2 (by simp)
          simpa using ws_ne_hash hc2
    rw [if_pos ht]
  · rfl

theorem matchAt2_none_of_ws : ∀ l, (∀ c ∈ l, pySpace c = true) → matchAt2 l = none := by
  intro l h
  unfold matchAt2
  split
  · rename_i t
    have ht : (t.takeWhile Char.isDigit).isEmpty = true := by
      rcases t with _ | ⟨c2, t2⟩
      · rfl
      · rw [List.takeWhile_cons_of_neg]
        · rfl
        · have hc2 : pySpace c2 = true := h c2 (by simp)
          simp [pySpace_not_digit hc2]
    simp [ht]
  · rfl

theorem matchAt3_none_of_ws : ∀ l, (∀ c ∈ l, pySpace c = true) → matchAt3 l = none := by
  intro l h
  unfold matchAt3
  split
  · rename_i c0 t
    have hc0 : pySpace c0 = true := h c0 (by simp)
    simp [pySpace_not_upperA hc0]
  · rfl

theorem matchAt4_none_of_ws : ∀ l, (∀ c ∈ l, pySpace c = true) → matchAt4 l = none := by
  intro l h
  unfold matchAt4
  split
  · rename_i t
    have hcolon : (t.takeWhile (fun c => c ≠ '\n')).getLast? ≠ some ':' := by
      intro hg
      have hm : (':' : Char) ∈ t.takeWhile (fun c => c ≠ '\n') :=
        List.mem_of_mem_getLast? hg
      have hmt : (':' : Char) ∈ t :=
        List.Sublist.mem hm (List.takeWhile_sublist _)
      exact absurd (h ':' (List.mem_cons_of_mem _ hmt)) (by decide)
    simp only [decide_not] at hcolon
    simp [hcolon]
  · rfl

theorem scanFor_succ {α : Type} (matchAt : List Char → Option α) (n : Nat) (l : List Char) :
    scanFor matchAt (n + 1) l =
      match matchAt l with
      | some r => some r
      | none =>
        match l with
        | [] => none
        | _ :: t => scanFor matchAt n t := rfl

theorem scanFor_none_of_ws {α : Type} (matchAt : List Char → Option α)
    (hma : ∀ l, (∀ c ∈ l, pySpace c = true) → matchAt l = none) :
    ∀ (fuel : Nat) (l : List Char), (∀ c ∈ l, pySpace c = true) →
      scanFor matchAt fuel l = none := by
  intro fuel
  induction fuel with
  | zero => intro l _; rfl
  | succ n ih =>
    intro l h
    rw [scanFor_succ, hma l h]
    match l with
    | [] => rfl
    | c :: t => exact ih t (fun x hx => h x (List.mem_cons_of_mem c hx))

theorem hasMatch_false_of_ws {matchAt : List Char → Option (List Char × List Char)}
    (hma : ∀ l, (∀ c ∈ l, pySpace c = true) → matchAt l = none)
    (l : List Char) (h : ∀ c ∈ l, pySpace c = true) : hasMatch matchAt l = false := by
  unfold hasMatch
  rw [scanFor_none_of_ws matchAt hma _ l h]
  rfl

theorem tryHeadingPat_eq_nil (matchAt : List Char → Option (List Char × List Char))
    (text : List Char) (size : Nat)
    (hm : hasMatch matchAt ('\n' :: text) = false) :
    tryHeadingPat matchAt text size = [] := by
  simp [tryHeadingPat, hm]

theorem mem_of_mem_splitOnSeqF (sep : List Char) :
    ∀ (fuel : Nat) (l p : List Char), p ∈ splitOnSeqF sep fuel l → ∀ c ∈ p, c ∈ l := by
  intro fuel
  induction fuel with
  | zero =>
    intro l p hp c hc
    simp [splitOnSeqF] at hp
    subst hp
    exact hc
  | succ n ih =>
    intro l p hp c hc
    match l with
    | [] =>
      simp [splitOnSeqF] at hp
      subst hp
      exact absurd hc (List.not_mem_nil c)
    | c0 :: t =>
      rw [splitOnSeqF] at hp
      split at hp
      · rcases List.mem_cons.mp hp with rfl | hp2
        · exact absurd hc (List.not_mem_nil c)
        · exact List.mem_of_mem_drop (ih _ p hp2 c hc)
      · rcases hrec : splitOnSeqF sep n t with _ | ⟨p0, ps⟩
        · rw [hrec] at hp
          simp at hp
          subst hp
          have hcc : c = c0 := by simpa using hc
          rw [hcc]
          exact List.mem_cons_self _ _
        · rw [hrec] at hp
          rcases List.mem_cons.mp hp with rfl | hp2
          · rcases List.mem_cons.mp hc with rfl | hc2
            · exact List.mem_cons_self _ _
            · have hq : p0 ∈ splitOnSeqF sep n t := by
                rw [hrec]
                exact List.mem_cons_self _ _
              exact List.mem_cons_of_mem _ (ih t p0 hq c hc2)
          · have hq : p ∈ splitOnSeqF sep n t := by
              rw [hrec]
              exact List.mem_cons_of_mem _ hp2
            exact List.mem_cons_of_mem _ (ih t p hq c hc)

theorem pyStrip_eq_nil_of_ws {l : List Char} (h : ∀ c ∈ l, pySpace c = true) :
    pyStrip l = [] := by
  unfold pyStrip lstrip
  rw [List.dropWhile_eq_nil_iff.mpr (by intro x hx; exact h x hx)]
  rfl

theorem sliceChunksF_mem_nil (size stride : Nat) :
    ∀ (fuel : Nat) (l : List Char), (∀ c ∈ l, pySpace c = true) →
      ∀ chunk ∈ sliceChunksF size stride fuel l, chunk = [] := by
  intro fuel
  induction fuel with
  | zero =>
    intro l _ chunk hchunk
    exact absurd hchunk (List.not_mem_nil chunk)
  | succ n ih =>
    intro l h chunk hchunk
    match l with
    | [] =>
      simp [sliceChunksF] at hchunk
    | c0 :: t =>
      simp only [sliceChunksF] at hchunk
      rcases List.mem_cons.mp hchunk with rfl | h2
      · exact pyStrip_eq_nil_of_ws (fun c hc => h c (List.mem_of_mem_take hc))
      · exact ih _ (fun c hc => h c (List.mem_of_mem_drop hc)) chunk h2

/-- C9: on an empty or whitespace-only document, and with
`0 < chunk_overlap < chunk_size`, the chunker returns the empty list
(and, being a total function, raises nothing): no heading pattern can
match whitespace, the paragraph list strips to nothing, and every
fixed-stride slice strips to the empty chunk, which the final filter
drops. -/
theorem chunker_whitespace_empty (text : String) (size overlap : Nat)
    (hov : 0 < overlap) (hos : overlap < size)
    (hws : ∀ c ∈ text.data, pySpace c = true) :
    chunk_document text size overlap = [] := by
  have hfull : ∀ c ∈ '\n' :: text.data, pySpace c = true := by
    intro c hc
    rcases List.mem_cons.mp hc with rfl | hc2
    · decide
    · exact hws c hc2
  have hm1 : tryHeadingPat matchAt1 text.data size = [] :=
    tryHeadingPat_eq_nil _ _ _ (hasMatch_false_of_ws matchAt1_none_of_ws _ hfull)
  have hm2 : tryHeadingPat matchAt2 text.data size = [] :=
    tryHeadingPat_eq_nil _ _ _ (hasMatch_false_of_ws matchAt2_none_of_ws _ hfull)
  have hm3 : tryHeadingPat matchAt3 text.data size = [] :=
    tryHeadingPat_eq_nil _ _ _ (hasMatch_false_of_ws matchAt3_none_of_ws _ hfull)
  have hm4 : tryHeadingPat matchAt4 text.data size = [] :=
    tryHeadingPat_eq_nil _ _ _ (hasMatch_false_of_ws matchAt4_none_of_ws _ hfull)
  have hparas : ((splitOnSeq text.data "\n\n".data).map pyStrip).filter
      (fun p => !p.isEmpty) = [] := by
    apply List.filter_eq_nil_iff.mpr
    intro p hp
    rcases List.mem_map.mp hp with ⟨q, hq, rfl⟩
    have hq2 : ∀ c ∈ q, pySpace c = true := fun c hc =>
      hws c (mem_of_mem_splitOnSeqF _ _ _ _ hq c hc)
    rw [pyStrip_eq_nil_of_ws hq2]
    simp
  have hslice := sliceChunksF_mem_nil size (size - overlap) text.data.length text.data hws
  have hfilter : (sliceChunksF size (size - overlap) text.data.length text.data).filter
      (fun c => !(pyStrip c).isEmpty) = [] := by
    apply List.filter_eq_nil_iff.mpr
    intro chunk hchunk
    rw [hslice chunk hchunk]
    decide
  simp only [chunk_document, List.foldl_cons, List.foldl_nil, hm1, hm2, hm3, hm4,
    List.isEmpty_nil, if_true, hparas, coalesceParaGo, hos, hfilter, List.map_nil]

/-- Witness for `chunker_whitespace_empty` on a five-character
whitespace-only document with `chunk_size = 3`, `chunk_overlap = 1`. -/
theorem chunker_whitespace_empty_witness :
    (0 < 1 ∧ 1 < 3 ∧ ∀ c ∈ (" \n\n \n" : String).data, pySpace c = true) ∧
    chunk_document " \n\n \n" 3 1 = [] :=
  ⟨⟨by decide, by decide, by decide⟩,
    chunker_whitespace_empty " \n\n \n" 3 1 (by decide) (by decide) (by decide)⟩

theorem pyStrip_length_le (l : List Char) : (pyStrip l).length ≤ l.length := by
  unfold pyStrip rstrip lstrip
  calc ((l.dropWhile pySpace).reverse.dropWhile pySpace).reverse.length
      ≤ (l.dropWhile pySpace).reverse.length := by
        rw [List.length_reverse]
        exact ((l.dropWhile pySpace).reverse.dropWhile_suffix pySpace).length_le
    _ ≤ l.length := by
        rw [List.length_reverse]
        exact (l.dropWhile_suffix pySpace).length_le

theorem pyTail_length_le (ov : Nat) (l : List Char) : (pyTail ov l).length ≤ ov := by
  unfold pyTail
  split
  · simp
  · rw [List.length_drop]
    omega

theorem le_foldr_max (xs : List Nat) : ∀ x ∈ xs, x ≤ xs.foldr max 0 := by
  induction xs with
  | nil => intro x hx; exact absurd hx (List.not_mem_nil x)
  | cons a t ih =>
    intro x hx
    rw [List.foldr_cons]
    rcases List.mem_cons.mp hx with rfl | h2
    · exact le_max_left _ _
    · exact le_trans (ih x h2) (le_max_right _ _)

theorem le_foldr_max_map {α : Type} (f : α → Nat) (xs : List α) :
    ∀ x ∈ xs, f x ≤ (xs.map f).foldr max 0 := fun x hx =>
  le_foldr_max _ (f x) (List.mem_map_of_mem f hx)

theorem coalesceHeadingGo_chunk_le (size U : Nat) :
    ∀ (us : List (List Char × List Char)) (cur : List Char),
      (∀ u ∈ us, (pyStrip u.1).length + u.2.length ≤ U) →
      cur.length ≤ max size U + 2 →
      ∀ chunk ∈ coalesceHeadingGo size us cur, chunk.length ≤ max size U + 2 := by
  intro us
  induction us with
  | nil =>
    intro cur _ hcur chunk hchunk
    rw [coalesceHeadingGo] at hchunk
    split at hchunk
    · exact absurd hchunk (List.not_mem_nil chunk)
    · rcases List.mem_cons.mp hchunk with rfl | h2
      · exact le_trans (pyStrip_length_le cur) hcur
      · exact absurd h2 (List.not_mem_nil chunk)
  | cons u us ih =>
    intro cur hus hcur chunk hchunk
    have hu : (pyStrip u.1).length + u.2.length ≤ U := hus u (List.mem_cons_self _ _)
    have hus2 : ∀ v ∈ us, (pyStrip v.1).length + v.2.length ≤ U :=
      fun v hv => hus v (List.mem_cons_of_mem _ hv)
    simp only [coalesceHeadingGo] at hchunk
    split at hchunk
    · rename_i hcond
      rcases List.mem_cons.mp hchunk with rfl | h2
      · exact le_trans (pyStrip_length_le cur) hcur
      · apply ih _ hus2 _ chunk h2
        simp only [List.length_cons, List.length_append]
        omega
    · apply ih _ hus2 _ chunk hchunk
      rename_i hcond
      rcases not_and_or.mp hcond with hle | hnil
      · have hsz : cur.length + ((pyStrip u.1).length + u.2.length) ≤ size := by
          rw [not_lt] at hle
          omega
        simp only [List.length_append, List.length_cons]
        omega
      · have hnil2 : cur = [] := not_not.mp hnil
        subst hnil2
        simp only [List.nil_append, List.length_cons, List.length_append]
        omega

theorem coalesceParaGo_chunk_le (size ov P : Nat) :
    ∀ (ps : List (List Char)) (cur : List Char),
      (∀ p ∈ ps, p.length ≤ P) →
      cur.length ≤ max (size + 1) (P + ov + 1) →
      ∀ chunk ∈ coalesceParaGo size ov ps cur,
        chunk.length ≤ max (size + 1) (P + ov + 1) := by
  intro ps
  induction ps with
  | nil =>
    intro cur _ hcur chunk hchunk
    rw [coalesceParaGo] at hchunk
    split at hchunk
    · exact absurd hchunk (List.not_mem_nil chunk)
    · rcases List.mem_cons.mp hchunk with rfl | h2
      · exact le_trans (pyStrip_length_le cur) hcur
      · exact absurd h2 (List.not_mem_nil chunk)
  | cons p ps ih =>
    intro cur hps hcur chunk hchunk
    have hp : p.length ≤ P := hps p (List.mem_cons_self _ _)
    have hps2 : ∀ q ∈ ps, q.length ≤ P := fun q hq => hps q (List.mem_cons_of_mem _ hq)
    simp only [coalesceParaGo] at hchunk
    split at hchunk
    · rcases List.mem_cons.mp hchunk with rfl | h2
      · exact le_trans (pyStrip_length_le cur) hcur
      · apply ih _ hps2 _ chunk h2
        have htail : (pyTail ov cur).length ≤ ov := pyTail_length_le ov cur
        simp only [List.length_append, List.length_cons]
        omega
    · apply ih _ hps2 _ chunk hchunk
      rename_i hcond
      rcases not_and_or.mp hcond with hle | hnil
      · rw [not_lt] at hle
        simp only [List.length_append, List.length_cons]
        omega
      · have hnil2 : cur = [] := not_not.mp hnil
        subst hnil2
        simp only [List.nil_append, List.length_cons]
        omega

theorem sliceChunksF_length_le (size stride : Nat) :
    ∀ (fuel : Nat) (l : List Char), ∀ chunk ∈ sliceChunksF size stride fuel l,
      chunk.length ≤ size := by
  intro fuel
  induction fuel with
  | zero =>
    intro l chunk hchunk
    exact absurd hchunk (List.not_mem_nil chunk)
  | succ n ih =>
    intro l chunk hchunk
    match l with
    | [] => simp [sliceChunksF] at hchunk
    | c0 :: t =>
      simp only [sliceChunksF] at hchunk
      rcases List.mem_cons.mp hchunk with rfl | h2
      · calc (pyStrip ((c0 :: t).take size)).length
            ≤ ((c0 :: t).take size).length := pyStrip_length_le _
          _ ≤ size := by simp
      · exact ih _ chunk h2

theorem foldl_try_mem (text : List Char) (size : Nat) :
    ∀ (ms : List (List Char → Option (List Char × List Char)))
      (acc : List (List Char)) (chunk : List Char),
      chunk ∈ ms.foldl (fun a m => if a.isEmpty then tryHeadingPat m text size else a) acc →
      chunk ∈ acc ∨ ∃ m ∈ ms, chunk ∈ tryHeadingPat m text size := by
  intro ms
  induction ms with
  | nil =>
    intro acc chunk h
    rw [List.foldl_nil] at h
    exact Or.inl h
  | cons m t ih =>
    intro acc chunk h
    rw [List.foldl_cons] at h
    rcases ih _ chunk h with hacc | ⟨m2, hm2, hc⟩
    · cases he : acc.isEmpty
      · rw [if_neg (by simp [he])] at hacc
        exact Or.inl hacc
      · rw [if_pos (by simp [he])] at hacc
        exact Or.inr ⟨m, List.mem_cons_self _ _, hacc⟩
    · exact Or.inr ⟨m2, List.mem_cons_of_mem _ hm2, hc⟩

theorem tryHeadingPat_length_le (m : List Char → Option (List Char × List Char))
    (text : List Char) (size : Nat) :
    ∀ chunk ∈ tryHeadingPat m text size,
      chunk.length ≤ max size
        (((toUnits (resplitF m (('\n' :: text).length + 1) ('\n' :: text))).map
          (fun u => (pyStrip u.1).length + u.2.length)).foldr max 0) + 2 := by
  intro chunk hchunk
  simp only [tryHeadingPat] at hchunk
  split at hchunk
  · exact coalesceHeadingGo_chunk_le size _ _ []
      (le_foldr_max_map (fun u : List Char × List Char => (pyStrip u.1).length + u.2.length) _)
      (by simp) chunk hchunk
  · exact absurd hchunk (List.not_mem_nil chunk)

/-- C8 counterexample: a single 20-character paragraph with
`chunk_size = 10`, `chunk_overlap = 2` is returned as one chunk of
length 20 — the coalescing loops only start a new chunk before
appending; a single unit longer than `chunk_size` becomes a chunk
exceeding `chunk_size`. -/
theorem chunk_exceeds_target_counterexample :
    chunk_document "aaaaaaaaaaaaaaaaaaaa" 10 2 = ["aaaaaaaaaaaaaaaaaaaa"] ∧
    ("aaaaaaaaaaaaaaaaaaaa" : String).length = 20 :=
  ⟨rfl, rfl⟩

/-- C8 (amended): coalescing bounds every chunk by the unit sizes, not
by `chunk_size` alone — each chunk of `_chunk_document` has length at
most `max (chunk_size + 2) (chunkUnitBound text + chunk_overlap + 2)`,
where `chunkUnitBound` is the length of the longest single coalescing
unit (stripped heading title plus content, or stripped paragraph) of the
document; the bound `chunk_size` itself holds only for the fixed-stride
slicing fallback. -/
theorem mem_ite_list {α : Type} {l : α} {b : Prop} [Decidable b] {A B : List α}
    (h : l ∈ if b then A else B) : l ∈ A ∨ l ∈ B := by
  split at h
  · exact Or.inl h
  · exact Or.inr h

theorem chunk_document_length_bound (text : String) (size overlap : Nat) :
    ∀ chunk ∈ chunk_document text size overlap,
      chunk.length ≤ max (size + 2) (chunkUnitBound text + overlap + 2) := by
  intro chunk hchunk
  simp only [chunk_document] at hchunk
  rcases List.mem_map.mp hchunk with ⟨l, hl, rfl⟩
  have hl2 := List.mem_of_mem_filter hl
  show l.length ≤ max (size + 2) (chunkUnitBound text + overlap + 2)
  rcases mem_ite_list hl2 with hout | hout
  · rcases mem_ite_list hout with hs | hs
    · have hsl := sliceChunksF_length_le size (size - overlap) text.data.length text.data l hs
      omega
    · exact absurd hs (List.not_mem_nil l)
  · rcases mem_ite_list hout with hp | hp
    · have hP := le_foldr_max_map List.length
        (((splitOnSeq text.data "\n\n".data).map pyStrip).filter (fun p => !p.isEmpty))
      have hb := coalesceParaGo_chunk_le size overlap
        (((((splitOnSeq text.data "\n\n".data).map pyStrip).filter
          (fun p => !p.isEmpty)).map List.length).foldr max 0)
        _ [] hP (by simp) l hp
      have hPM : (((((splitOnSeq text.data "\n\n".data).map pyStrip).filter
          (fun p => !p.isEmpty)).map List.length).foldr max 0) ≤ chunkUnitBound text := by
        simp only [chunkUnitBound]
        omega
      omega
    · rcases foldl_try_mem text.data size _ _ l hp with habs | ⟨m, hm, hc⟩
      · exact absurd habs (List.not_mem_nil l)
      · have hb := tryHeadingPat_length_le m text.data size l hc
        have hUm : ((toUnits (resplitF m (('\n' :: text.data).length + 1)
              ('\n' :: text.data))).map
            (fun u => (pyStrip u.1).length + u.2.length)).foldr max 0 ≤
            chunkUnitBound text := by
          simp only [List.mem_cons, List.not_mem_nil, or_false] at hm
          rcases hm with rfl | rfl | rfl | rfl <;>
            · simp only [chunkUnitBound]
              omega
        omega

/-- Witness for `chunk_document_length_bound`: the 20-character
single-paragraph chunk of the counterexample obeys the amended
bound. -/
theorem chunk_document_length_bound_witness :
    ("aaaaaaaaaaaaaaaaaaaa" : String) ∈ chunk_document "aaaaaaaaaaaaaaaaaaaa" 10 2 ∧
    ("aaaaaaaaaaaaaaaaaaaa" : String).length ≤
      max (10 + 2) (chunkUnitBound "aaaaaaaaaaaaaaaaaaaa" + 2 + 2) :=
  ⟨by decide,
    chunk_document_length_bound "aaaaaaaaaaaaaaaaaaaa" 10 2 "aaaaaaaaaaaaaaaaaaaa" (by decide)⟩

/-- C10 counterexample: the combine-stage extractor does not keep the
`"No Especificada"` placeholder when no date can be extracted — it
defaults `fecha` to the current date.  On an unparseable TDR with no
sections, the returned `fecha` is the current date string, which is not
the placeholder. -/
theorem combine_metadata_fecha_default_counterexample :
    combine_extract_project_metadata "07 de octubre, 2025" "" [] =
      [("titulo_proyecto", JValue.str "Proyecto No Especificado"),
       ("cliente", JValue.str "Cliente No Especificado"),
       ("fecha", JValue.str "07 de octubre, 2025")] ∧
    ("07 de octubre, 2025" : String) ≠ "No Especificada" :=
  ⟨rfl, by decide⟩

/-- C10 (amended): both extractors are total functions of their string
inputs and always return a dictionary with exactly the keys
`titulo_proyecto`, `cliente`, `fecha` in that order; when nothing can be
extracted (unparseable input, no regex match, no sections), the
section-stage extractor returns its `No Especificado`/`No Especificada`
defaults unchanged, while the combine-stage extractor keeps the literal
placeholders only for title and client — its `fecha` default is the
current date, not `"No Especificada"`. -/
theorem metadata_keys_and_defaults (now tdr_info : String) (sections : List String) :
    (extract_project_metadata tdr_info).map Prod.fst =
      ["titulo_proyecto", "cliente", "fecha"] ∧
    (combine_extract_project_metadata now tdr_info sections).map Prod.fst =
      ["titulo_proyecto", "cliente", "fecha"] ∧
    (jsonLoads tdr_info = none →
      titleSearch tdr_info.data = none →
      clientSearch tdr_info.data = none →
      dateSearch tdr_info.data = none →
      extract_project_metadata tdr_info = defaultMetadata) ∧
    (jsonLoads tdr_info = none → sections = [] →
      combine_extract_project_metadata now tdr_info sections =
        [("titulo_proyecto", JValue.str "Proyecto No Especificado"),
         ("cliente", JValue.str "Cliente No Especificado"),
         ("fecha", JValue.str now)]) := by
  refine ⟨?_, ?_, ?_, ?_⟩
  · cases hj : jsonLoads tdr_info with
    | none =>
      simp only [extract_project_metadata, hj]
      cases h1 : titleSearch tdr_info.data <;>
        cases h2 : clientSearch tdr_info.data <;>
          cases h3 : dateSearch tdr_info.data <;> rfl
    | some v =>
      cases v
      case obj kvs =>
        simp only [extract_project_metadata, hj]
        cases h1 : kvs.lookup "titulo_proyecto" <;>
          cases h2 : kvs.lookup "cliente" <;>
            cases h3 : firstDateField kvs <;> rfl
      all_goals (simp only [extract_project_metadata, hj]; rfl)
  · cases hj : jsonLoads tdr_info with
    | none =>
      cases sections with
      | nil =>
        simp only [combine_extract_project_metadata, hj]
        rfl
      | cons intro rest =>
        simp only [combine_extract_project_metadata, hj]
        cases h1 : titleSearch intro.data <;>
          cases h2 : clientSearch intro.data <;> rfl
    | some v =>
      cases v
      case obj kvs =>
        simp only [combine_extract_project_metadata, hj]
        cases h1 : kvs.lookup "titulo_proyecto" with
        | none =>
          cases h2 : kvs.lookup "cliente" with
          | none => cases h3 : firstDateField kvs <;> rfl
          | some v2 =>
            dsimp only
            cases hv2 : isStrVal v2 "No especificado" <;>
              cases h3 : firstDateField kvs <;> rfl
        | some v1 =>
          dsimp only
          cases hv1 : isStrVal v1 "No especificado" with
          | false =>
            cases h2 : kvs.lookup "cliente" with
            | none => cases h3 : firstDateField kvs <;> rfl
            | some v2 =>
              dsimp only
              cases hv2 : isStrVal v2 "No especificado" <;>
                cases h3 : firstDateField kvs <;> rfl
          | true =>
            cases h2 : kvs.lookup "cliente" with
            | none => cases h3 : firstDateField kvs <;> rfl
            | some v2 =>
              dsimp only
              cases hv2 : isStrVal v2 "No especificado" <;>
                cases h3 : firstDateField kvs <;> rfl
      all_goals (simp only [combine_extract_project_metadata, hj]; rfl)
  · intro hnone ht hc hd
    simp only [extract_project_metadata, hnone, ht, hc, hd]
  · intro hnone hsec
    subst hsec
    simp only [combine_extract_project_metadata, hnone]

/-- Witness for `metadata_keys_and_defaults`: both nothing-extractable
branches on the empty TDR string. -/
theorem metadata_keys_and_defaults_witness :
    extract_project_metadata "" = defaultMetadata ∧
    combine_extract_project_metadata "01/01/2025" "" [] =
      [("titulo_proyecto", JValue.str "Proyecto No Especificado"),
       ("cliente", JValue.str "Cliente No Especificado"),
       ("fecha", JValue.str "01/01/2025")] :=
  ⟨(metadata_keys_and_defaults "01/01/2025" "" []).2.2.1 rfl rfl rfl rfl,
    (metadata_keys_and_defaults "01/01/2025" "" []).2.2.2 rfl rfl⟩

end Agentes
